import Mathlib

/-!
# PRoot: syscall filter synthesis (`src/syscall/seccomp.c`) and tracee access (`child.c`)

A shallow embedding of the two C files.

* `seccomp.c`: the program under construction is a `sock_fprog` (the 16-bit `len` field
  and the talloc array `filter`); every helper returns `Except Int sock_fprog` where the
  error is the negative errno of the C function.  Allocation is an oracle `alloc` telling
  whether a talloc request for an array of the given length succeeds.  The sentinel
  `SYSCALL_AVOIDER` comes from a header and is a parameter `AV`.
* The kernel side (classic BPF over `struct seccomp_data`) is the small interpreter
  `bpf_run`, restricted to the three opcodes the synthesizer emits.  It runs the
  instruction array that was assembled; `len` is kept as the C code stores it, modulo
  `2 ^ 16`, and only matters to the length check of `end_arch_section`.
* The count of traced entries of a table is a plain natural; the `size_t` expressions
  that `start_arch_section` and `end_arch_section` compute from a count wrap modulo
  `SIZE_MOD`; every value stored in an instruction field is narrowed to the width of
  the field.
* The installation part of `set_seccomp_filters` runs against a `Host` giving the status
  of the two `prctl` requests, and reports the requests it has issued.
* `child.c`: the tracee is a record of byte memory, USER area, a per-request success
  oracle and the log of `ptrace` requests issued so far.
-/

namespace PRoot

/-! ## Constants of the host headers -/

abbrev UINT8_MAX : Nat := 255
abbrev UINT32_MAX : Nat := 4294967295
abbrev USHRT_MOD : Nat := 65536
/-- Number of values of `size_t`, 64 bits wide on the x86_64 host of the first table of
`seccomp.c`: sums and products of `size_t` are taken modulo it. -/
abbrev SIZE_MOD : Nat := 18446744073709551616
abbrev ENOMEM : Int := 12
abbrev ERANGE : Int := 34

abbrev BPF_LD : Nat := 0x00
abbrev BPF_W : Nat := 0x00
abbrev BPF_ABS : Nat := 0x20
abbrev BPF_JMP : Nat := 0x05
abbrev BPF_JEQ : Nat := 0x10
abbrev BPF_K : Nat := 0x00
abbrev BPF_RET : Nat := 0x06

abbrev SECCOMP_RET_KILL : Nat := 0x00000000
abbrev SECCOMP_RET_TRACE : Nat := 0x7ff00000
abbrev SECCOMP_RET_ALLOW : Nat := 0x7fff0000

/-- Value of `offsetof(struct seccomp_data, nr)`. -/
abbrev syscall_offset : Nat := 0
/-- Value of `offsetof(struct seccomp_data, arch)`. -/
abbrev arch_offset : Nat := 4

abbrev LENGTH_TRACE_SYSCALL : Nat := 2
abbrev LENGTH_END_SECTION : Nat := 1
abbrev LENGTH_START_SECTION : Nat := 3
abbrev LENGTH_FINALIZE : Nat := 1

/-! ## Data model of `seccomp.c` -/

/-- One BPF instruction: `struct sock_filter { __u16 code; __u8 jt; __u8 jf; __u32 k; }`. -/
structure sock_filter where
  code : Nat
  jt : Nat
  jf : Nat
  k : Nat
deriving DecidableEq, Repr

/-- The program being built: `struct sock_fprog { unsigned short len; struct sock_filter *filter; }`.
The length of the list is `talloc_array_length(program->filter)`. -/
structure sock_fprog where
  len : Nat
  filter : List sock_filter
deriving DecidableEq, Repr

/-- One entry of a syscall list: a `word_t` value and its flag. -/
structure FilteredSyscall where
  value : Nat
  flag : Int
deriving DecidableEq, Repr

/-- One entry of the architecture table. -/
structure Filter where
  architecture : Nat
  syscalls : List FilteredSyscall
deriving DecidableEq, Repr

/-- Conversion of an integer to a 32-bit unsigned (`__u32`) value. -/
def to_u32 (x : Int) : Nat := (x % 4294967296).toNat

/-- The cast `(int) value` of a `word_t`: the low 32 bits read as two's complement. -/
def cast_int (v : Nat) : Int :=
  if v % 4294967296 < 2147483648 then ((v % 4294967296 : Nat) : Int)
  else ((v % 4294967296 : Nat) : Int) - 4294967296

/-- The initializer `BPF_STMT(code, k)`; fields are narrowed to their widths. -/
def BPF_STMT (code k : Nat) : sock_filter :=
  { code := code % 65536, jt := 0, jf := 0, k := k % 4294967296 }

/-- The initializer `BPF_JUMP(code, k, jt, jf)`; fields are narrowed to their widths,
in particular `jt` and `jf` to 8 bits. -/
def BPF_JUMP (code k jt jf : Nat) : sock_filter :=
  { code := code % 65536, jt := jt % 256, jf := jf % 256, k := k % 4294967296 }

/-! ## The assembling functions of `seccomp.c` -/

/-- Allocate an empty filter (`talloc_array(NULL, struct sock_filter, 0)`). -/
def new_program_filter (alloc : Nat → Bool) : Except Int sock_fprog :=
  if alloc 0 = false then .error (-ENOMEM)
  else .ok { len := 0, filter := [] }

/-- Append the statements to the filter array; `program->len` is left untouched. -/
def add_statements (alloc : Nat → Bool) (program : sock_fprog)
    (statements : List sock_filter) : Except Int sock_fprog :=
  let length := program.filter.length
  if alloc (length + statements.length) = false then .error (-ENOMEM)
  else .ok { program with filter := program.filter ++ statements }

/-- Append the two statements that notify the tracer about syscall number `syscall`. -/
def add_trace_syscall (alloc : Nat → Bool) (program : sock_fprog) (syscall : Nat)
    (flag : Int) : Except Int sock_fprog :=
  if syscall > UINT32_MAX then .error (-ERANGE)
  else
    add_statements alloc program
      [ BPF_JUMP (BPF_JMP + BPF_JEQ + BPF_K) syscall 0 1,
        BPF_STMT (BPF_RET + BPF_K) (to_u32 ((SECCOMP_RET_TRACE : Int) + flag)) ]

/-- Append the allow statement and check the section length against the baseline
stored in `program->len`.  Both sides of the comparison are `size_t` expressions and
wrap: the difference of the array length and the (promoted) baseline, and the sum and
product on the count. -/
def end_arch_section (alloc : Nat → Bool) (program : sock_fprog)
    (nb_traced_syscalls : Nat) : Except Int sock_fprog :=
  match add_statements alloc program [BPF_STMT (BPF_RET + BPF_K) SECCOMP_RET_ALLOW] with
  | .error e => .error e
  | .ok program =>
    if (program.filter.length + (SIZE_MOD - program.len % SIZE_MOD)) % SIZE_MOD
        ≠ (LENGTH_END_SECTION + nb_traced_syscalls * LENGTH_TRACE_SYSCALL) % SIZE_MOD then
      .error (-ERANGE)
    else .ok program

/-- Append the architecture guard and record the baseline in the 16-bit `program->len`.
The section length is a `size_t` expression and wraps. -/
def start_arch_section (alloc : Nat → Bool) (program : sock_fprog) (architecture : Nat)
    (nb_traced_syscalls : Nat) : Except Int sock_fprog :=
  let section_length :=
    (LENGTH_END_SECTION + nb_traced_syscalls * LENGTH_TRACE_SYSCALL) % SIZE_MOD
  if arch_offset > UINT32_MAX ∨ syscall_offset > UINT32_MAX ∨ section_length > UINT8_MAX then
    .error (-ERANGE)
  else
    match add_statements alloc program
        [ BPF_STMT (BPF_LD + BPF_W + BPF_ABS) arch_offset,
          BPF_JUMP (BPF_JMP + BPF_JEQ + BPF_K) architecture 0
            ((section_length + 1) % SIZE_MOD),
          BPF_STMT (BPF_LD + BPF_W + BPF_ABS) syscall_offset ] with
    | .error e => .error e
    | .ok program => .ok { program with len := program.filter.length % USHRT_MOD }

/-- Append the kill statement and store the final length in the 16-bit `program->len`. -/
def finalize_program_filter (alloc : Nat → Bool) (program : sock_fprog) :
    Except Int sock_fprog :=
  match add_statements alloc program [BPF_STMT (BPF_RET + BPF_K) SECCOMP_RET_KILL] with
  | .error e => .error e
  | .ok program => .ok { program with len := program.filter.length % USHRT_MOD }

/-- The pre-counting loop of `set_seccomp_filters`: entries up to the sentinel whose
value is non-negative as an `int`. -/
def count_traced_syscalls (AV : Nat) : List FilteredSyscall → Nat
  | [] => 0
  | s :: rest =>
    if s.value = AV then 0
    else (if cast_int s.value ≥ 0 then 1 else 0) + count_traced_syscalls AV rest

/-- The emitting loop of `set_seccomp_filters` over one syscall list. -/
def add_traced_syscalls (alloc : Nat → Bool) (AV : Nat) :
    List FilteredSyscall → sock_fprog → Except Int sock_fprog
  | [], program => .ok program
  | s :: rest, program =>
    if s.value = AV then .ok program
    else if cast_int s.value < 0 then add_traced_syscalls alloc AV rest program
    else
      match add_trace_syscall alloc program s.value s.flag with
      | .error e => .error e
      | .ok program => add_traced_syscalls alloc AV rest program

/-- The loop of `set_seccomp_filters` over the architecture table, up to the entry
whose architecture is zero. -/
def assemble_sections (alloc : Nat → Bool) (AV : Nat) :
    List Filter → sock_fprog → Except Int sock_fprog
  | [], program => .ok program
  | f :: rest, program =>
    if f.architecture = 0 then .ok program
    else
      let nb_traced_syscalls := count_traced_syscalls AV f.syscalls
      match start_arch_section alloc program f.architecture nb_traced_syscalls with
      | .error e => .error e
      | .ok program =>
        match add_traced_syscalls alloc AV f.syscalls program with
        | .error e => .error e
        | .ok program =>
          match end_arch_section alloc program nb_traced_syscalls with
          | .error e => .error e
          | .ok program => assemble_sections alloc AV rest program

/-- The assembling part of `set_seccomp_filters` (from `new_program_filter` to
`finalize_program_filter`): the program handed to the installation requests. -/
def set_seccomp_filters_assemble (alloc : Nat → Bool) (AV : Nat) (filters : List Filter) :
    Except Int sock_fprog :=
  match new_program_filter alloc with
  | .error e => .error e
  | .ok program =>
    match assemble_sections alloc AV filters program with
    | .error e => .error e
    | .ok program => finalize_program_filter alloc program

/-! ## Kernel side: evaluation of a filter on a syscall context -/

/-- The two 32-bit fields of `struct seccomp_data` the filters look at. -/
structure seccomp_data where
  nr : Nat
  arch : Nat
deriving DecidableEq, Repr

/-- A 32-bit absolute load from the context (`BPF_LD + BPF_W + BPF_ABS`). -/
def seccomp_data.load (data : seccomp_data) (k : Nat) : Option Nat :=
  if k = syscall_offset then some data.nr
  else if k = arch_offset then some data.arch
  else none

/-- Classic BPF interpreter on the instructions from the program counter on, with
accumulator `A`; `skip` is the number of instructions still to jump over.  Running
off the end of the program gives no verdict. -/
def bpf_run (data : seccomp_data) : List sock_filter → Nat → Nat → Option Nat
  | [], _, _ => none
  | _ :: rest, A, skip + 1 => bpf_run data rest A skip
  | insn :: rest, A, 0 =>
    if insn.code = BPF_LD + BPF_W + BPF_ABS then
      match data.load insn.k with
      | some v => bpf_run data rest v 0
      | none => none
    else if insn.code = BPF_JMP + BPF_JEQ + BPF_K then
      bpf_run data rest A (if A = insn.k then insn.jt else insn.jf)
    else if insn.code = BPF_RET + BPF_K then some insn.k
    else none

/-- Verdict of an assembled program (its instruction array) on a syscall context. -/
def seccomp_run_filter (program : sock_fprog) (data : seccomp_data) : Option Nat :=
  bpf_run data program.filter 0 0

/-! ## Reading a Filter Specification, and the shape of the assembled program -/

/-- Entries of the architecture table before the terminating zero architecture. -/
def table_entries (filters : List Filter) : List Filter :=
  filters.takeWhile (fun f => decide (f.architecture ≠ 0))

/-- Entries of a syscall list before the sentinel. -/
def listed_syscalls (AV : Nat) (syscalls : List FilteredSyscall) : List FilteredSyscall :=
  syscalls.takeWhile (fun s => decide (s.value ≠ AV))

/-- Traced syscalls of a list: the listed entries whose value is non-negative as an `int`. -/
def traced_syscalls (AV : Nat) (syscalls : List FilteredSyscall) : List FilteredSyscall :=
  (listed_syscalls AV syscalls).filter (fun s => decide (0 ≤ cast_int s.value))

/-- First table entry bearing the given architecture identifier. -/
def first_entry (filters : List Filter) (arch : Nat) : Option Filter :=
  (table_entries filters).find? (fun f => decide (f.architecture = arch))

/-- Instructions emitted by `add_trace_syscall` for a list of traced entries. -/
def trace_code : List FilteredSyscall → List sock_filter
  | [] => []
  | s :: rest =>
    BPF_JUMP (BPF_JMP + BPF_JEQ + BPF_K) s.value 0 1
      :: BPF_STMT (BPF_RET + BPF_K) (to_u32 ((SECCOMP_RET_TRACE : Int) + s.flag))
      :: trace_code rest

/-- Instructions of one architecture section: guard, trace checks, allow. -/
def section_code (architecture : Nat) (traced : List FilteredSyscall) : List sock_filter :=
  [ BPF_STMT (BPF_LD + BPF_W + BPF_ABS) arch_offset,
    BPF_JUMP (BPF_JMP + BPF_JEQ + BPF_K) architecture 0
      (LENGTH_END_SECTION + traced.length * LENGTH_TRACE_SYSCALL + 1),
    BPF_STMT (BPF_LD + BPF_W + BPF_ABS) syscall_offset ]
  ++ trace_code traced ++ [BPF_STMT (BPF_RET + BPF_K) SECCOMP_RET_ALLOW]

/-- Instructions of all the sections of a table, in order. -/
def sections_code (AV : Nat) : List Filter → List sock_filter
  | [] => []
  | f :: rest => section_code f.architecture (traced_syscalls AV f.syscalls) ++ sections_code AV rest

/-- Verdict of the trace checks of a section followed by its allow statement, when the
accumulator holds the syscall number `nr`. -/
def section_verdict (traced : List FilteredSyscall) (nr : Nat) : Nat :=
  match traced.find? (fun s => decide (s.value = nr)) with
  | some s => to_u32 ((SECCOMP_RET_TRACE : Int) + s.flag)
  | none => SECCOMP_RET_ALLOW

/-! ## Concrete inputs used to exercise the definitions -/

abbrev AUDIT_ARCH_X86_64 : Nat := 0xC000003E
abbrev AUDIT_ARCH_I386 : Nat := 0x40000003

/-- The sentinel `(word_t) -2` on a host with 64-bit words. -/
abbrev AV_64 : Nat := 18446744073709551614

/-- A table with one architecture and 127 traced syscalls, numbered 0 to 126. -/
def filters_127 : List Filter :=
  [ { architecture := AUDIT_ARCH_X86_64,
      syscalls := (List.range 127).map (fun i => { value := i, flag := 1 })
        ++ [{ value := AV_64, flag := 0 }] },
    { architecture := 0, syscalls := [] } ]

/-- A table with two architectures; the value `(word_t) -1` marks a syscall that is
listed but not traced. -/
def filters_x86 : List Filter :=
  [ { architecture := AUDIT_ARCH_X86_64,
      syscalls := [⟨1, 0⟩, ⟨18446744073709551615, 0⟩, ⟨2, 1⟩, ⟨AV_64, 0⟩] },
    { architecture := AUDIT_ARCH_I386, syscalls := [⟨5, 0⟩, ⟨AV_64, 0⟩] },
    { architecture := 0, syscalls := [] } ]

/-- The program assembled from `filters_x86`. -/
def program_x86 : sock_fprog :=
  { len := 15,
    filter :=
      [ { code := 32, jt := 0, jf := 0, k := 4 },
        { code := 21, jt := 0, jf := 6, k := 3221225534 },
        { code := 32, jt := 0, jf := 0, k := 0 },
        { code := 21, jt := 0, jf := 1, k := 1 },
        { code := 6, jt := 0, jf := 0, k := 2146435072 },
        { code := 21, jt := 0, jf := 1, k := 2 },
        { code := 6, jt := 0, jf := 0, k := 2146435073 },
        { code := 6, jt := 0, jf := 0, k := 2147418112 },
        { code := 32, jt := 0, jf := 0, k := 4 },
        { code := 21, jt := 0, jf := 4, k := 1073741827 },
        { code := 32, jt := 0, jf := 0, k := 0 },
        { code := 21, jt := 0, jf := 1, k := 5 },
        { code := 6, jt := 0, jf := 0, k := 2146435072 },
        { code := 6, jt := 0, jf := 0, k := 2147418112 },
        { code := 6, jt := 0, jf := 0, k := 0 } ] }

/-! ## Data model of `child.c`

`W` is `sizeof(unsigned long)`; addresses and register values are `unsigned long`, so
they live below `ADDR_MOD W = 2 ^ (8 * W)`.  A word moved by `PTRACE_PEEKDATA` or
`PTRACE_POKEDATA` is the list of its `W` bytes in memory order, which is how the code
looks at it through `unsigned char *`. -/

abbrev ADDR_MOD (W : Nat) : Nat := 2 ^ (8 * W)
abbrev ULONG_MAX (W : Nat) : Nat := 2 ^ (8 * W) - 1

/-- Conversion of an integer to `unsigned long`. -/
def to_ulong (W : Nat) (x : Int) : Nat := (x % (ADDR_MOD W : Nat)).toNat

/-- A `ptrace` request on the tracee. -/
inductive Request where
  | PEEKUSER (offset : Nat)
  | POKEUSER (offset : Nat) (value : Nat)
  | PEEKDATA (addr : Nat)
  | POKEDATA (addr : Nat) (word : List Nat)
deriving DecidableEq, Repr

/-- The stopped tracee as seen through `ptrace`: its memory by byte address, its USER
area by byte offset, which requests the kernel accepts, and the requests issued so far. -/
structure Tracee where
  mem : Nat → Nat
  user : Nat → Nat
  ok : Request → Bool
  log : List Request

def Tracee.record (t : Tracee) (r : Request) : Tracee :=
  { t with log := t.log ++ [r] }

/-- The word at `addr`: bytes `addr`, `addr + 1`, ... of the address space. -/
def load_word (W : Nat) (mem : Nat → Nat) (addr : Nat) : List Nat :=
  (List.range W).map (fun j => mem ((addr + j) % ADDR_MOD W))

/-- Memory after the word at `addr` is replaced. -/
def store_word (W : Nat) (mem : Nat → Nat) (addr : Nat) (word : List Nat) : Nat → Nat :=
  fun a =>
    match (List.range W).find? (fun j => decide ((addr + j) % ADDR_MOD W = a)) with
    | some j => word.getD j 0
    | none => mem a

/-- The call `ptrace(PTRACE_PEEKUSER, pid, offset, NULL)`: the word read, or nothing
when the request fails (`errno` set). -/
def ptrace_PEEKUSER (t : Tracee) (offset : Nat) : Option Nat × Tracee :=
  (if t.ok (.PEEKUSER offset) then some (t.user offset) else none,
   t.record (.PEEKUSER offset))

/-- The call `ptrace(PTRACE_POKEUSER, pid, offset, value)`: its return value 0 or -1,
as stored in an `unsigned long`. -/
def ptrace_POKEUSER (W : Nat) (t : Tracee) (offset value : Nat) : Nat × Tracee :=
  if t.ok (.POKEUSER offset value) then
    (0, { t.record (.POKEUSER offset value) with
            user := fun o => if o = offset then value else t.user o })
  else (ULONG_MAX W, t.record (.POKEUSER offset value))

/-- The call `ptrace(PTRACE_PEEKDATA, pid, addr, NULL)`. -/
def ptrace_PEEKDATA (W : Nat) (t : Tracee) (addr : Nat) : Option (List Nat) × Tracee :=
  (if t.ok (.PEEKDATA addr) then some (load_word W t.mem addr) else none,
   t.record (.PEEKDATA addr))

/-- The call `ptrace(PTRACE_POKEDATA, pid, addr, word)`: its return value 0 or -1,
as stored in an `unsigned long`. -/
def ptrace_POKEDATA (W : Nat) (t : Tracee) (addr : Nat) (word : List Nat) : Nat × Tracee :=
  if t.ok (.POKEDATA addr word) then
    (0, { t.record (.POKEDATA addr word) with mem := store_word W t.mem addr word })
  else (ULONG_MAX W, t.record (.POKEDATA addr word))

/-- Pointer arithmetic `base + i` on an `unsigned long *`. -/
def word_ptr (W : Nat) (base i : Nat) : Nat := (base + i * W) % ADDR_MOD W

/-- The word `src[i]` of a buffer of the tracer, given by its bytes. -/
def buffer_word (W : Nat) (buffer : Nat → Nat) (i : Nat) : List Nat :=
  (List.range W).map (fun j => buffer (i * W + j))

/-! ## The functions of `child.c`

A result `none` stands for `exit(EXIT_FAILURE)`.  The tests `status < 0` are on an
`unsigned long`, as in the source. -/

/-- Resize the stack of the tracee by `size` bytes and return the new stack pointer;
`REG_SP` is `USER_REGS_OFFSET(REG_SP)`. -/
def resize_child_stack (W : Nat) (REG_SP : Nat) (t : Tracee) (size : Int) :
    Option Nat × Tracee :=
  match ptrace_PEEKUSER t REG_SP with
  | (none, t) => (none, t)
  | (some status, t) =>
    let stack_pointer := status
    if (size > 0 ∧ stack_pointer ≤ to_ulong W size)
        ∨ (size < 0 ∧ stack_pointer ≥ to_ulong W ((ULONG_MAX W : Nat) + size)) then
      (none, t)
    else
      let stack_pointer := to_ulong W ((stack_pointer : Int) - size)
      match ptrace_POKEUSER W t REG_SP stack_pointer with
      | (status, t) =>
        if status < 0 then (none, t)
        else (some stack_pointer, t)

/-- The first loop of `copy_to_child`: `n` iterations starting at word `i`. -/
def copy_to_child_words (W : Nat) (dest_child : Nat) (src_parent : Nat → Nat) :
    Nat → Nat → Tracee → Option Unit × Tracee
  | 0, _, t => (some (), t)
  | n + 1, i, t =>
    match ptrace_POKEDATA W t (word_ptr W dest_child i) (buffer_word W src_parent i) with
    | (status, t) =>
      if status < 0 then (none, t)
      else copy_to_child_words W dest_child src_parent n (i + 1) t

/-- Copy `size` bytes of the buffer `src_parent` to the address `dest_child` of the
tracee. -/
def copy_to_child (W : Nat) (t : Tracee) (dest_child : Nat) (src_parent : Nat → Nat)
    (size : Nat) : Option Unit × Tracee :=
  let nb_trailing_bytes := size % W
  let nb_full_words := (size - nb_trailing_bytes) / W
  match copy_to_child_words W dest_child src_parent nb_full_words 0 t with
  | (none, t) => (none, t)
  | (some _, t) =>
    let i := nb_full_words
    match ptrace_PEEKDATA W t (word_ptr W dest_child i) with
    | (none, t) => (none, t)
    | (some word, t) =>
      let word := (List.range W).map
        (fun j => if j < nb_trailing_bytes then src_parent (i * W + j) else word.getD j 0)
      match ptrace_POKEDATA W t (word_ptr W dest_child i) word with
      | (status, t) =>
        if status < 0 then (none, t)
        else (some (), t)

/-- The assignment `dest[i] = word` on the buffer of the tracer. -/
def buffer_store (W : Nat) (buffer : Nat → Nat) (i : Nat) (word : List Nat) : Nat → Nat :=
  fun b => if i * W ≤ b ∧ b < i * W + W then word.getD (b - i * W) 0 else buffer b

/-- How a loop of `get_child_string` ends. -/
inductive Ending where
  | exited
  | returned (result : Nat)
  | completed
deriving DecidableEq, Repr

/-- The first loop of `get_child_string`: `n` iterations starting at word `i`. -/
def get_child_string_words (W : Nat) (src_child : Nat) :
    Nat → Nat → Tracee → (Nat → Nat) → Ending × (Nat → Nat) × Tracee
  | 0, _, t, dest => (.completed, dest, t)
  | n + 1, i, t, dest =>
    match ptrace_PEEKDATA W t (word_ptr W src_child i) with
    | (none, t) => (.exited, dest, t)
    | (some word, t) =>
      let dest := buffer_store W dest i word
      match (List.range W).find? (fun j => decide (word.getD j 0 = 0)) with
      | some j => (.returned (i * W + j), dest, t)
      | none => get_child_string_words W src_child n (i + 1) t dest

/-- The last loop of `get_child_string`: at most `n` more bytes from byte `j` of the
word, stopping after a zero byte is copied; gives the final `j`. -/
def get_child_string_bytes (W : Nat) (word : List Nat) (i : Nat) :
    Nat → Nat → (Nat → Nat) → Nat × (Nat → Nat)
  | 0, j, dest => (j, dest)
  | n + 1, j, dest =>
    let dest := fun b => if b = i * W + j then word.getD j 0 else dest b
    if word.getD j 0 = 0 then (j, dest)
    else get_child_string_bytes W word i n (j + 1) dest

/-- Copy to the buffer `dest_parent` at most `max_size` bytes of the string at address
`src_child` of the tracee; gives the returned size and the buffer. -/
def get_child_string (W : Nat) (t : Tracee) (dest_parent : Nat → Nat) (src_child : Nat)
    (max_size : Nat) : Option Nat × (Nat → Nat) × Tracee :=
  let nb_trailing_bytes := max_size % W
  let nb_full_words := (max_size - nb_trailing_bytes) / W
  match get_child_string_words W src_child nb_full_words 0 t dest_parent with
  | (.exited, dest, t) => (none, dest, t)
  | (.returned result, dest, t) => (some result, dest, t)
  | (.completed, dest, t) =>
    let i := nb_full_words
    match ptrace_PEEKDATA W t (word_ptr W src_child i) with
    | (none, t) => (none, dest, t)
    | (some word, t) =>
      match get_child_string_bytes W word i nb_trailing_bytes 0 dest with
      | (j, dest) => (some (i * W + j), dest, t)

/-- Byte `k` of the tracee memory counted from address `addr`. -/
def Tracee.byte_from (W : Nat) (t : Tracee) (addr k : Nat) : Nat :=
  t.mem ((addr + k) % ADDR_MOD W)

/-- A tracee whose memory and registers are zero and which accepts every request. -/
def tracee_zero : Tracee :=
  { mem := fun _ => 0, user := fun _ => 0, ok := fun _ => true, log := [] }

/-- A tracee holding the string "ab" and its terminator at address 1000, every other
byte being `0xff`. -/
def tracee_ab : Tracee :=
  { tracee_zero with
    mem := fun a => if a = 1000 then 97 else if a = 1001 then 98 else if a = 1002 then 0 else 255 }

/-- Value of `USER_REGS_OFFSET(REG_SP)` on x86_64 (`rsp` in `struct user`). -/
abbrev REG_SP_X86_64 : Nat := 152

/-- A tracee whose stack pointer is `0x7ffffffff000`. -/
def tracee_stack : Tracee :=
  { tracee_zero with user := fun o => if o = REG_SP_X86_64 then 140737488351232 else 0 }

/-! ## The register accessors of `child.c` -/

/-- Modelled from the spec: the first slot of the enumeration of `child.h`, which is
contiguous: syscall number, six arguments, return value, in the order of the table
`arg_offset`. -/
abbrev SYSARG_FIRST : Int := 0

/-- Modelled from the spec: the last slot of the enumeration of `child.h`, the return
value. -/
abbrev SYSARG_LAST : Int := 7

/-- Return the `sysarg` argument of the current syscall of the tracee; `arg_offset` is
the table of register offsets, whose entries come from the architecture header. -/
def get_child_sysarg (arg_offset : List Nat) (t : Tracee) (sysarg : Int) :
    Option Nat × Tracee :=
  if sysarg < SYSARG_FIRST ∨ sysarg > SYSARG_LAST then (none, t)
  else
    match ptrace_PEEKUSER t (arg_offset.getD sysarg.toNat 0) with
    | (none, t) => (none, t)
    | (some result, t) => (some result, t)

/-- Set the `sysarg` argument of the current syscall of the tracee to `value`. -/
def set_child_sysarg (W : Nat) (arg_offset : List Nat) (t : Tracee) (sysarg : Int)
    (value : Nat) : Option Unit × Tracee :=
  if sysarg < SYSARG_FIRST ∨ sysarg > SYSARG_LAST then (none, t)
  else
    match ptrace_POKEUSER W t (arg_offset.getD sysarg.toNat 0) value with
    | (status, t) =>
      if status < 0 then (none, t)
      else (some (), t)

/-! ## Installation of the assembled program -/

/-- A `prctl` request of `set_seccomp_filters`. -/
inductive PrctlRequest where
  | SET_NO_NEW_PRIVS
  | SET_SECCOMP (program : sock_fprog)
deriving DecidableEq, Repr

/-- The answers of the host kernel to the two `prctl` requests. -/
structure Host where
  no_new_privs : Int
  seccomp : sock_fprog → Int

/-- The function `set_seccomp_filters`: its return value and the `prctl` requests it
has issued, in order. -/
def set_seccomp_filters (alloc : Nat → Bool) (AV : Nat) (host : Host)
    (filters : List Filter) : Int × List PrctlRequest :=
  match set_seccomp_filters_assemble alloc AV filters with
  | .error e => (e, [])
  | .ok program =>
    let status := host.no_new_privs
    if status < 0 then (status, [.SET_NO_NEW_PRIVS])
    else
      let status := host.seccomp program
      if status < 0 then (status, [.SET_NO_NEW_PRIVS, .SET_SECCOMP program])
      else (0, [.SET_NO_NEW_PRIVS, .SET_SECCOMP program])

/-! ## Further readings of a table and of a program -/

/-- Number of instructions of the sections of a table: guard, trace checks and allow
for each architecture. -/
def sections_length (AV : Nat) : List Filter → Nat
  | [] => 0
  | f :: rest =>
    (LENGTH_START_SECTION + count_traced_syscalls AV f.syscalls * LENGTH_TRACE_SYSCALL
      + LENGTH_END_SECTION) + sections_length AV rest

/-- Values of the traced syscalls of a table, in order. -/
def traced_values (AV : Nat) : List Filter → List Nat
  | [] => []
  | f :: rest => (traced_syscalls AV f.syscalls).map (fun s => s.value) ++ traced_values AV rest

/-- Comparison operands of the trace checks of a program: the conditional jumps that
skip exactly one instruction. -/
def trace_check_operands : List sock_filter → List Nat
  | [] => []
  | insn :: rest =>
    if insn.code = BPF_JMP + BPF_JEQ + BPF_K ∧ insn.jf = 1 then
      insn.k :: trace_check_operands rest
    else trace_check_operands rest

/-- Every instruction is one the interpreter knows, every conditional jump lands on an
instruction that follows it in the list, and a load is never the last instruction. -/
def stays_inside : List sock_filter → Prop
  | [] => True
  | insn :: rest =>
    stays_inside rest ∧
    (insn.code = BPF_RET + BPF_K
      ∨ (insn.code = BPF_LD + BPF_W + BPF_ABS
          ∧ (insn.k = syscall_offset ∨ insn.k = arch_offset) ∧ rest ≠ [])
      ∨ (insn.code = BPF_JMP + BPF_JEQ + BPF_K
          ∧ insn.jt < rest.length ∧ insn.jf < rest.length))

/-! ## More concrete inputs -/

/-- The table `arg_offset` on x86_64: `orig_rax`, `rdi`, `rsi`, `rdx`, `r10`, `r8`,
`r9`, `rax` in `struct user`. -/
def arg_offset_x86_64 : List Nat := [120, 112, 104, 96, 56, 72, 64, 80]

/-- A tracee whose memory is mapped below address 4096 only and holds no zero byte: a
word is read or written when it lies wholly below 4096. -/
def tracee_page_end : Tracee :=
  { mem := fun _ => 255,
    user := fun _ => 0,
    ok := fun r =>
      match r with
      | .PEEKDATA addr => decide (addr + 8 ≤ 4096)
      | .POKEDATA addr _ => decide (addr + 8 ≤ 4096)
      | _ => true,
    log := [] }

/-- A tracee that has vanished: the kernel refuses every request. -/
def tracee_gone : Tracee :=
  { tracee_zero with ok := fun _ => false }

/-- A host kernel that accepts both requests. -/
def host_accepting : Host :=
  { no_new_privs := 0, seccomp := fun _ => 0 }

/-- A table with a traced entry whose value, `2 ^ 32 + 5`, does not fit 32 bits. -/
def filters_wide : List Filter :=
  [ { architecture := AUDIT_ARCH_X86_64, syscalls := [⟨4294967301, 0⟩, ⟨AV_64, 0⟩] },
    { architecture := 0, syscalls := [] } ]

/-! ## Lemmas on the assembling functions -/

theorem to_u32_lt (x : Int) : to_u32 x < 4294967296 := by
  unfold to_u32
  omega

theorem to_u32_of_range (x : Int) (h0 : 0 ≤ x) (h1 : x < 4294967296) : to_u32 x = x.toNat := by
  unfold to_u32
  omega

theorem trace_code_length (tr : List FilteredSyscall) :
    (trace_code tr).length = tr.length * LENGTH_TRACE_SYSCALL := by
  induction tr with
  | nil => rfl
  | cons s rest ih =>
    simp only [trace_code, List.length_cons, ih, LENGTH_TRACE_SYSCALL]
    omega

theorem traced_syscalls_nil (AV : Nat) : traced_syscalls AV [] = [] := rfl

theorem traced_syscalls_cons (AV : Nat) (s : FilteredSyscall) (rest : List FilteredSyscall) :
    traced_syscalls AV (s :: rest) =
      if s.value = AV then []
      else if 0 ≤ cast_int s.value then s :: traced_syscalls AV rest
      else traced_syscalls AV rest := by
  unfold traced_syscalls listed_syscalls
  by_cases h : s.value = AV
  · simp [List.takeWhile, h]
  · by_cases h2 : 0 ≤ cast_int s.value
    · simp [List.takeWhile, h, h2]
    · simp [List.takeWhile, h, h2]

theorem count_traced_syscalls_eq (AV : Nat) (l : List FilteredSyscall) :
    count_traced_syscalls AV l = (traced_syscalls AV l).length := by
  induction l with
  | nil => rfl
  | cons s rest ih =>
    rw [traced_syscalls_cons, count_traced_syscalls]
    by_cases h : s.value = AV
    · simp [h]
    · by_cases h2 : 0 ≤ cast_int s.value
      · simp [h, h2, ih]; omega
      · simp [h, h2, ih]

theorem add_statements_ok (alloc : Nat → Bool) (p q : sock_fprog) (st : List sock_filter)
    (h : add_statements alloc p st = .ok q) : q.len = p.len ∧ q.filter = p.filter ++ st := by
  unfold add_statements at h
  by_cases ha : alloc (p.filter.length + st.length) = false
  · simp [ha] at h
  · simp [ha] at h
    subst h
    exact ⟨rfl, rfl⟩

theorem add_trace_syscall_ok (alloc : Nat → Bool) (p q : sock_fprog) (v : Nat) (flag : Int)
    (h : add_trace_syscall alloc p v flag = .ok q) :
    v ≤ UINT32_MAX ∧ q.len = p.len ∧ q.filter = p.filter ++ trace_code [⟨v, flag⟩] := by
  unfold add_trace_syscall at h
  by_cases hv : v > UINT32_MAX
  · simp [hv] at h
  · simp only [hv, if_false] at h
    have := add_statements_ok alloc p q _ h
    exact ⟨by omega, this.1, this.2⟩

theorem add_traced_syscalls_ok (alloc : Nat → Bool) (AV : Nat) (l : List FilteredSyscall) :
    ∀ p q : sock_fprog, add_traced_syscalls alloc AV l p = .ok q →
      q.len = p.len ∧ q.filter = p.filter ++ trace_code (traced_syscalls AV l) ∧
      ∀ s ∈ traced_syscalls AV l, s.value ≤ UINT32_MAX := by
  induction l with
  | nil =>
    intro p q h
    simp [add_traced_syscalls] at h
    subst h
    simp [traced_syscalls_nil, trace_code]
  | cons s rest ih =>
    intro p q h
    rw [traced_syscalls_cons]
    unfold add_traced_syscalls at h
    by_cases h1 : s.value = AV
    · simp [h1] at h
      subst h
      simp [h1, trace_code]
    · by_cases h2 : cast_int s.value < 0
      · have h2' : ¬ (0 ≤ cast_int s.value) := by omega
        simp only [h1, h2, if_true, if_false] at h
        simpa [h1, h2'] using ih p q h
      · have h2' : 0 ≤ cast_int s.value := by omega
        simp only [h1, h2, if_false] at h
        cases hts : add_trace_syscall alloc p s.value s.flag with
        | error e => simp [hts] at h
        | ok p1 =>
          simp only [hts] at h
          obtain ⟨hv, hl, hf⟩ := add_trace_syscall_ok alloc p p1 _ _ hts
          obtain ⟨hl2, hf2, hall⟩ := ih p1 q h
          simp only [h1, h2', if_true, if_false]
          refine ⟨by rw [hl2, hl], ?_, ?_⟩
          · rw [hf2, hf]
            simp [trace_code]
          · intro x hx
            rcases List.mem_cons.mp hx with rfl | hx
            · exact hv
            · exact hall x hx

theorem start_arch_section_ok (alloc : Nat → Bool) (p q : sock_fprog) (arch nb : Nat)
    (h : start_arch_section alloc p arch nb = .ok q) :
    (LENGTH_END_SECTION + nb * LENGTH_TRACE_SYSCALL) % SIZE_MOD ≤ UINT8_MAX ∧
    q.filter = p.filter ++
      [ BPF_STMT (BPF_LD + BPF_W + BPF_ABS) arch_offset,
        BPF_JUMP (BPF_JMP + BPF_JEQ + BPF_K) arch 0
          (LENGTH_END_SECTION + nb * LENGTH_TRACE_SYSCALL + 1),
        BPF_STMT (BPF_LD + BPF_W + BPF_ABS) syscall_offset ] ∧
    q.len = q.filter.length % USHRT_MOD := by
  unfold start_arch_section at h
  by_cases hr : arch_offset > UINT32_MAX ∨ syscall_offset > UINT32_MAX ∨
      (LENGTH_END_SECTION + nb * LENGTH_TRACE_SYSCALL) % SIZE_MOD > UINT8_MAX
  · simp only [hr, if_true] at h
    cases h
  · simp only [hr, if_false] at h
    have hle : (LENGTH_END_SECTION + nb * LENGTH_TRACE_SYSCALL) % SIZE_MOD ≤ UINT8_MAX := by
      by_contra hc
      exact hr (Or.inr (Or.inr (by omega)))
    have hjump : BPF_JUMP (BPF_JMP + BPF_JEQ + BPF_K) arch 0
          (((LENGTH_END_SECTION + nb * LENGTH_TRACE_SYSCALL) % SIZE_MOD + 1) % SIZE_MOD)
        = BPF_JUMP (BPF_JMP + BPF_JEQ + BPF_K) arch 0
          (LENGTH_END_SECTION + nb * LENGTH_TRACE_SYSCALL + 1) := by
      have : (((LENGTH_END_SECTION + nb * LENGTH_TRACE_SYSCALL) % SIZE_MOD + 1) % SIZE_MOD)
          % 256 = (LENGTH_END_SECTION + nb * LENGTH_TRACE_SYSCALL + 1) % 256 := by
        simp only [LENGTH_END_SECTION, LENGTH_TRACE_SYSCALL, SIZE_MOD]
        omega
      simp only [BPF_JUMP, this]
    rw [hjump] at h
    generalize hst : add_statements alloc p _ = r at h
    cases r with
    | error e => cases h
    | ok p1 =>
      simp only [Except.ok.injEq] at h
      subst h
      have := add_statements_ok alloc p p1 _ hst
      exact ⟨hle, this.2, rfl⟩

theorem end_arch_section_ok (alloc : Nat → Bool) (p q : sock_fprog) (nb : Nat)
    (h : end_arch_section alloc p nb = .ok q) :
    q.len = p.len ∧ q.filter = p.filter ++ [BPF_STMT (BPF_RET + BPF_K) SECCOMP_RET_ALLOW] := by
  unfold end_arch_section at h
  generalize hst : add_statements alloc p _ = r at h
  cases r with
  | error e => cases h
  | ok p1 =>
    simp only at h
    split at h
    · cases h
    · simp only [Except.ok.injEq] at h
      subst h
      exact add_statements_ok alloc p p1 _ hst

theorem finalize_program_filter_ok (alloc : Nat → Bool) (p q : sock_fprog)
    (h : finalize_program_filter alloc p = .ok q) :
    q.filter = p.filter ++ [BPF_STMT (BPF_RET + BPF_K) SECCOMP_RET_KILL] ∧
    q.len = q.filter.length % USHRT_MOD := by
  unfold finalize_program_filter at h
  generalize hst : add_statements alloc p _ = r at h
  cases r with
  | error e => cases h
  | ok p1 =>
    simp only [Except.ok.injEq] at h
    subst h
    exact ⟨(add_statements_ok alloc p p1 _ hst).2, rfl⟩

theorem table_entries_cons (f : Filter) (rest : List Filter) :
    table_entries (f :: rest) =
      if f.architecture = 0 then [] else f :: table_entries rest := by
  unfold table_entries
  by_cases h : f.architecture = 0 <;> simp [List.takeWhile, h]

/-- What a successful run of the architecture loop has appended, and what the checks
it passed say about the table. -/
theorem assemble_sections_ok (alloc : Nat → Bool) (AV : Nat) (fs : List Filter) :
    ∀ p q : sock_fprog, assemble_sections alloc AV fs p = .ok q →
      q.filter = p.filter ++ sections_code AV (table_entries fs) ∧
      ∀ f ∈ table_entries fs,
        (LENGTH_END_SECTION + (traced_syscalls AV f.syscalls).length * LENGTH_TRACE_SYSCALL)
          % SIZE_MOD ≤ UINT8_MAX ∧
        ∀ s ∈ traced_syscalls AV f.syscalls, s.value ≤ UINT32_MAX := by
  induction fs with
  | nil =>
    intro p q h
    simp only [assemble_sections, Except.ok.injEq] at h
    subst h
    simp [table_entries, sections_code]
  | cons f rest ih =>
    intro p q h
    rw [table_entries_cons]
    unfold assemble_sections at h
    by_cases h0 : f.architecture = 0
    · simp only [h0, if_true, Except.ok.injEq] at h
      subst h
      simp [h0, sections_code]
    · simp only [h0, if_false] at h
      cases h1 : start_arch_section alloc p f.architecture
          (count_traced_syscalls AV f.syscalls) with
      | error e => simp [h1] at h
      | ok p1 =>
        simp only [h1] at h
        cases h2 : add_traced_syscalls alloc AV f.syscalls p1 with
        | error e => simp [h2] at h
        | ok p2 =>
          simp only [h2] at h
          cases h3 : end_arch_section alloc p2 (count_traced_syscalls AV f.syscalls) with
          | error e => simp [h3] at h
          | ok p3 =>
            simp only [h3] at h
            obtain ⟨hle, hf1, _⟩ := start_arch_section_ok alloc p p1 _ _ h1
            obtain ⟨_, hf2, hall⟩ := add_traced_syscalls_ok alloc AV f.syscalls p1 p2 h2
            obtain ⟨_, hf3⟩ := end_arch_section_ok alloc p2 p3 _ h3
            obtain ⟨hf4, hrest⟩ := ih p3 q h
            rw [count_traced_syscalls_eq] at hle hf1
            simp only [h0, if_false]
            refine ⟨?_, ?_⟩
            · rw [hf4, hf3, hf2, hf1]
              simp [sections_code, section_code]
            · intro g hg
              rcases List.mem_cons.mp hg with rfl | hg
              · exact ⟨hle, hall⟩
              · exact hrest g hg

/-- Shape of every program `set_seccomp_filters` assembles without error. -/
theorem set_seccomp_filters_assemble_ok (alloc : Nat → Bool) (AV : Nat) (fs : List Filter)
    (q : sock_fprog) (h : set_seccomp_filters_assemble alloc AV fs = .ok q) :
    q.filter = sections_code AV (table_entries fs)
        ++ [BPF_STMT (BPF_RET + BPF_K) SECCOMP_RET_KILL] ∧
      ∀ f ∈ table_entries fs,
        (LENGTH_END_SECTION + (traced_syscalls AV f.syscalls).length * LENGTH_TRACE_SYSCALL)
          % SIZE_MOD ≤ UINT8_MAX ∧
        ∀ s ∈ traced_syscalls AV f.syscalls, s.value ≤ UINT32_MAX := by
  unfold set_seccomp_filters_assemble at h
  cases h0 : new_program_filter alloc with
  | error e => simp [h0] at h
  | ok p0 =>
    simp only [h0] at h
    have hp0 : p0.filter = [] := by
      unfold new_program_filter at h0
      split at h0
      · cases h0
      · simp only [Except.ok.injEq] at h0
        subst h0
        rfl
    cases h1 : assemble_sections alloc AV fs p0 with
    | error e => simp [h1] at h
    | ok p1 =>
      simp only [h1] at h
      obtain ⟨hf1, hall⟩ := assemble_sections_ok alloc AV fs p0 p1 h1
      obtain ⟨hf2, _⟩ := finalize_program_filter_ok alloc p1 q h
      refine ⟨?_, hall⟩
      rw [hf2, hf1, hp0]
      simp

/-! ## Lemmas on the interpreter -/

theorem bpf_run_skip_append (d : seccomp_data) (l1 l2 : List sock_filter) :
    ∀ (A n : Nat), bpf_run d (l1 ++ l2) A (l1.length + n) = bpf_run d l2 A n := by
  induction l1 with
  | nil => intro A n; simp
  | cons i rest ih =>
    intro A n
    have : (i :: rest).length + n = (rest.length + n) + 1 := by simp; omega
    rw [this, List.cons_append, bpf_run, ih]

theorem bpf_run_skip_one (d : seccomp_data) (i : sock_filter) (rest : List sock_filter)
    (A : Nat) : bpf_run d (i :: rest) A 1 = bpf_run d rest A 0 := rfl

theorem bpf_run_ret (d : seccomp_data) (k A : Nat) (rest : List sock_filter)
    (hk : k < 4294967296) :
    bpf_run d (BPF_STMT (BPF_RET + BPF_K) k :: rest) A 0 = some k := by
  have h1 : ¬ ((BPF_STMT (BPF_RET + BPF_K) k).code = BPF_LD + BPF_W + BPF_ABS) := by
    show ¬ ((BPF_RET + BPF_K) % 65536 = BPF_LD + BPF_W + BPF_ABS)
    decide
  have h2 : ¬ ((BPF_STMT (BPF_RET + BPF_K) k).code = BPF_JMP + BPF_JEQ + BPF_K) := by
    show ¬ ((BPF_RET + BPF_K) % 65536 = BPF_JMP + BPF_JEQ + BPF_K)
    decide
  have h3 : (BPF_STMT (BPF_RET + BPF_K) k).code = BPF_RET + BPF_K := rfl
  have h4 : (BPF_STMT (BPF_RET + BPF_K) k).k = k := Nat.mod_eq_of_lt hk
  rw [bpf_run, if_neg h1, if_neg h2, if_pos h3, h4]

theorem bpf_run_jeq (d : seccomp_data) (k jt jf A : Nat) (rest : List sock_filter)
    (hk : k < 4294967296) (hjt : jt < 256) (hjf : jf < 256) :
    bpf_run d (BPF_JUMP (BPF_JMP + BPF_JEQ + BPF_K) k jt jf :: rest) A 0
      = bpf_run d rest A (if A = k then jt else jf) := by
  have h1 : ¬ ((BPF_JUMP (BPF_JMP + BPF_JEQ + BPF_K) k jt jf).code
      = BPF_LD + BPF_W + BPF_ABS) := by
    show ¬ ((BPF_JMP + BPF_JEQ + BPF_K) % 65536 = BPF_LD + BPF_W + BPF_ABS)
    decide
  have h2 : (BPF_JUMP (BPF_JMP + BPF_JEQ + BPF_K) k jt jf).code
      = BPF_JMP + BPF_JEQ + BPF_K := rfl
  have h3 : (BPF_JUMP (BPF_JMP + BPF_JEQ + BPF_K) k jt jf).k = k := Nat.mod_eq_of_lt hk
  have h4 : (BPF_JUMP (BPF_JMP + BPF_JEQ + BPF_K) k jt jf).jt = jt := Nat.mod_eq_of_lt hjt
  have h5 : (BPF_JUMP (BPF_JMP + BPF_JEQ + BPF_K) k jt jf).jf = jf := Nat.mod_eq_of_lt hjf
  rw [bpf_run, if_neg h1, if_pos h2, h3, h4, h5]

theorem bpf_run_ld_arch (d : seccomp_data) (A : Nat) (rest : List sock_filter) :
    bpf_run d (BPF_STMT (BPF_LD + BPF_W + BPF_ABS) arch_offset :: rest) A 0
      = bpf_run d rest d.arch 0 := by
  have h1 : (BPF_STMT (BPF_LD + BPF_W + BPF_ABS) arch_offset).code
      = BPF_LD + BPF_W + BPF_ABS := by decide
  have h2 : d.load (BPF_STMT (BPF_LD + BPF_W + BPF_ABS) arch_offset).k = some d.arch := rfl
  rw [bpf_run, if_pos h1, h2]

theorem bpf_run_ld_nr (d : seccomp_data) (A : Nat) (rest : List sock_filter) :
    bpf_run d (BPF_STMT (BPF_LD + BPF_W + BPF_ABS) syscall_offset :: rest) A 0
      = bpf_run d rest d.nr 0 := by
  have h1 : (BPF_STMT (BPF_LD + BPF_W + BPF_ABS) syscall_offset).code
      = BPF_LD + BPF_W + BPF_ABS := by decide
  have h2 : d.load (BPF_STMT (BPF_LD + BPF_W + BPF_ABS) syscall_offset).k = some d.nr := rfl
  rw [bpf_run, if_pos h1, h2]

theorem bpf_run_trace_code (d : seccomp_data) (nr : Nat) (rest : List sock_filter)
    (tr : List FilteredSyscall) (hv : ∀ s ∈ tr, s.value ≤ UINT32_MAX) :
    bpf_run d (trace_code tr ++ BPF_STMT (BPF_RET + BPF_K) SECCOMP_RET_ALLOW :: rest) nr 0
      = some (section_verdict tr nr) := by
  induction tr with
  | nil =>
    simp only [trace_code, List.nil_append]
    rw [bpf_run_ret d _ _ _ (by decide)]
    rfl
  | cons s tl ih =>
    have hs : s.value < 4294967296 := by
      have := hv s (List.mem_cons_self _ _)
      simp only [UINT32_MAX] at this
      omega
    have htl : ∀ x ∈ tl, x.value ≤ UINT32_MAX := fun x hx => hv x (List.mem_cons_of_mem _ hx)
    simp only [trace_code, List.cons_append]
    rw [bpf_run_jeq d _ _ _ _ _ hs (by decide) (by decide)]
    by_cases hnr : nr = s.value
    · have hfind : section_verdict (s :: tl) nr = to_u32 ((SECCOMP_RET_TRACE : Int) + s.flag) := by
        simp [section_verdict, List.find?, hnr]
      rw [if_pos hnr, bpf_run_ret d _ _ _ (to_u32_lt _), hfind]
    · have hne : ¬ (s.value = nr) := fun h => hnr h.symm
      have hfind : section_verdict (s :: tl) nr = section_verdict tl nr := by
        simp [section_verdict, List.find?, hne]
      rw [if_neg hnr, bpf_run_skip_one, ih htl, hfind]

theorem section_code_cons (arch : Nat) (tr : List FilteredSyscall) (rest : List sock_filter) :
    section_code arch tr ++ rest =
      BPF_STMT (BPF_LD + BPF_W + BPF_ABS) arch_offset ::
      BPF_JUMP (BPF_JMP + BPF_JEQ + BPF_K) arch 0
        (LENGTH_END_SECTION + tr.length * LENGTH_TRACE_SYSCALL + 1) ::
      ((BPF_STMT (BPF_LD + BPF_W + BPF_ABS) syscall_offset ::
          (trace_code tr ++ [BPF_STMT (BPF_RET + BPF_K) SECCOMP_RET_ALLOW])) ++ rest) := by
  simp [section_code]

/-- A guard whose architecture matches lets the section decide. -/
theorem bpf_run_section_enter (d : seccomp_data) (arch A : Nat) (tr : List FilteredSyscall)
    (rest : List sock_filter) (harch : arch ≤ UINT32_MAX) (hd : d.arch = arch)
    (hv : ∀ s ∈ tr, s.value ≤ UINT32_MAX) :
    bpf_run d (section_code arch tr ++ rest) A 0 = some (section_verdict tr d.nr) := by
  have ha : arch < 4294967296 := by simp only [UINT32_MAX] at harch; omega
  have hmod : BPF_JUMP (BPF_JMP + BPF_JEQ + BPF_K) arch 0
        (LENGTH_END_SECTION + tr.length * LENGTH_TRACE_SYSCALL + 1)
      = BPF_JUMP (BPF_JMP + BPF_JEQ + BPF_K) arch 0
        ((LENGTH_END_SECTION + tr.length * LENGTH_TRACE_SYSCALL + 1) % 256) := by
    simp [BPF_JUMP]
  rw [section_code_cons, bpf_run_ld_arch, hmod,
    bpf_run_jeq d _ _ _ _ _ ha (by decide) (Nat.mod_lt _ (by decide)),
    if_pos hd, List.cons_append, bpf_run_ld_nr, List.append_assoc, List.singleton_append]
  exact bpf_run_trace_code d d.nr rest tr hv

/-- A guard whose architecture does not match jumps to the instruction that follows the
section, as long as the skip distance survives the 8-bit field. -/
theorem bpf_run_section_skip (d : seccomp_data) (arch A : Nat) (tr : List FilteredSyscall)
    (rest : List sock_filter) (harch : arch ≤ UINT32_MAX) (hd : d.arch ≠ arch)
    (hlen : tr.length ≤ 126) :
    bpf_run d (section_code arch tr ++ rest) A 0 = bpf_run d rest d.arch 0 := by
  have ha : arch < 4294967296 := by simp only [UINT32_MAX] at harch; omega
  have hjf : (LENGTH_END_SECTION + tr.length * LENGTH_TRACE_SYSCALL + 1) % 256
      = (BPF_STMT (BPF_LD + BPF_W + BPF_ABS) syscall_offset ::
          (trace_code tr ++ [BPF_STMT (BPF_RET + BPF_K) SECCOMP_RET_ALLOW])).length + 0 := by
    simp only [List.length_cons, List.length_append, trace_code_length, List.length_nil,
      LENGTH_END_SECTION, LENGTH_TRACE_SYSCALL]
    omega
  have hmod : BPF_JUMP (BPF_JMP + BPF_JEQ + BPF_K) arch 0
        (LENGTH_END_SECTION + tr.length * LENGTH_TRACE_SYSCALL + 1)
      = BPF_JUMP (BPF_JMP + BPF_JEQ + BPF_K) arch 0
        ((LENGTH_END_SECTION + tr.length * LENGTH_TRACE_SYSCALL + 1) % 256) := by
    simp [BPF_JUMP]
  rw [section_code_cons, bpf_run_ld_arch, hmod,
    bpf_run_jeq d _ _ _ _ _ ha (by decide) (Nat.mod_lt _ (by decide)),
    if_neg hd, hjf, bpf_run_skip_append]

/-- When no guard of the table matches and every skip distance fits its field, the
program falls through to the instructions after the last section. -/
theorem bpf_run_sections_none (d : seccomp_data) (AV : Nat) (rest : List sock_filter)
    (tbl : List Filter)
    (hty : ∀ g ∈ tbl, g.architecture ≤ UINT32_MAX)
    (hlen : ∀ g ∈ tbl, (traced_syscalls AV g.syscalls).length ≤ 126)
    (hnone : ∀ g ∈ tbl, g.architecture ≠ d.arch) :
    ∀ A, ∃ A', bpf_run d (sections_code AV tbl ++ rest) A 0 = bpf_run d rest A' 0 := by
  induction tbl with
  | nil => intro A; exact ⟨A, by simp [sections_code]⟩
  | cons g tl ih =>
    intro A
    have hg := List.mem_cons_self g tl
    obtain ⟨A', hA'⟩ := ih (fun x hx => hty x (List.mem_cons_of_mem _ hx))
      (fun x hx => hlen x (List.mem_cons_of_mem _ hx))
      (fun x hx => hnone x (List.mem_cons_of_mem _ hx)) d.arch
    refine ⟨A', ?_⟩
    rw [sections_code, List.append_assoc,
      bpf_run_section_skip d _ A _ _ (hty g hg) (fun h => hnone g hg h.symm) (hlen g hg), hA']

/-- The first section whose guard matches decides the verdict. -/
theorem bpf_run_sections_find (d : seccomp_data) (AV : Nat) (rest : List sock_filter)
    (f : Filter) (tbl : List Filter)
    (hty : ∀ g ∈ tbl, g.architecture ≤ UINT32_MAX)
    (hlen : ∀ g ∈ tbl, (traced_syscalls AV g.syscalls).length ≤ 126)
    (hval : ∀ g ∈ tbl, ∀ s ∈ traced_syscalls AV g.syscalls, s.value ≤ UINT32_MAX)
    (hf : tbl.find? (fun g => decide (g.architecture = d.arch)) = some f) :
    ∀ A, bpf_run d (sections_code AV tbl ++ rest) A 0
      = some (section_verdict (traced_syscalls AV f.syscalls) d.nr) := by
  induction tbl with
  | nil => simp at hf
  | cons g tl ih =>
    intro A
    have hg := List.mem_cons_self g tl
    rw [sections_code, List.append_assoc]
    by_cases hga : g.architecture = d.arch
    · have hfg : f = g := by
        simp [List.find?, hga] at hf
        exact hf.symm
      subst hfg
      exact bpf_run_section_enter d _ A _ _ (hty f hg) hga.symm (hval f hg)
    · have hf' : tl.find? (fun g => decide (g.architecture = d.arch)) = some f := by
        simpa [List.find?, hga] using hf
      rw [bpf_run_section_skip d _ A _ _ (hty g hg) (fun h => hga h.symm) (hlen g hg)]
      exact ih (fun x hx => hty x (List.mem_cons_of_mem _ hx))
        (fun x hx => hlen x (List.mem_cons_of_mem _ hx))
        (fun x hx => hval x (List.mem_cons_of_mem _ hx)) hf' d.arch

theorem find_filter_of_imp {α : Type} (p q : α → Bool) (hpq : ∀ x, q x = true → p x = true)
    (l : List α) : (l.filter p).find? q = l.find? q := by
  induction l with
  | nil => rfl
  | cons x tl ih =>
    by_cases hq : q x = true
    · have hp := hpq x hq
      simp [List.filter, List.find?, hp, hq]
    · by_cases hp : p x = true
      · simp [List.filter, List.find?, hp, hq, ih]
      · simp [List.filter, List.find?, hp, hq, ih]

/-- Verdict of an assembled program on a context whose architecture is in the table,
when every guard skip distance fits the 8-bit field. -/
theorem seccomp_run_filter_matching (alloc : Nat → Bool) (AV : Nat) (filters : List Filter)
    (prog : sock_fprog) (d : seccomp_data) (f : Filter)
    (hasm : set_seccomp_filters_assemble alloc AV filters = .ok prog)
    (hty : ∀ g ∈ table_entries filters, g.architecture ≤ UINT32_MAX)
    (hskip : ∀ g ∈ table_entries filters, count_traced_syscalls AV g.syscalls ≤ 126)
    (hf : first_entry filters d.arch = some f) :
    seccomp_run_filter prog d = some (section_verdict (traced_syscalls AV f.syscalls) d.nr) := by
  obtain ⟨hshape, hall⟩ := set_seccomp_filters_assemble_ok alloc AV filters prog hasm
  unfold seccomp_run_filter
  rw [hshape]
  exact bpf_run_sections_find d AV _ f (table_entries filters) hty
    (fun g hg => by rw [← count_traced_syscalls_eq]; exact hskip g hg)
    (fun g hg => (hall g hg).2) hf 0

/-- Verdict of an assembled program on a context whose architecture is not in the
table, when every guard skip distance fits the 8-bit field: the final kill. -/
theorem seccomp_run_filter_foreign_arch (alloc : Nat → Bool) (AV : Nat)
    (filters : List Filter) (prog : sock_fprog) (d : seccomp_data)
    (hasm : set_seccomp_filters_assemble alloc AV filters = .ok prog)
    (hty : ∀ g ∈ table_entries filters, g.architecture ≤ UINT32_MAX)
    (hskip : ∀ g ∈ table_entries filters, count_traced_syscalls AV g.syscalls ≤ 126)
    (hnone : ∀ g ∈ table_entries filters, g.architecture ≠ d.arch) :
    seccomp_run_filter prog d = some SECCOMP_RET_KILL := by
  obtain ⟨hshape, _⟩ := set_seccomp_filters_assemble_ok alloc AV filters prog hasm
  unfold seccomp_run_filter
  rw [hshape]
  obtain ⟨A', hA'⟩ := bpf_run_sections_none d AV
    [BPF_STMT (BPF_RET + BPF_K) SECCOMP_RET_KILL] (table_entries filters) hty
    (fun g hg => by rw [← count_traced_syscalls_eq]; exact hskip g hg) hnone 0
  rw [hA', bpf_run_ret d _ _ _ (by decide)]

/-! ## The claims on `seccomp.c` -/

set_option maxRecDepth 100000

/-- C1 (fails on the code): with 127 traced syscalls in the only section, the guard's
false-branch offset 256 is stored as 0, so a context of an architecture absent from
the table is not killed: the assembling succeeds and the program runs the section's
checks, giving a trace verdict for syscall 0 and the allow verdict for syscall 1000. -/
theorem C1_foreign_arch_not_killed :
    (∀ g ∈ table_entries filters_127, g.architecture ≠ AUDIT_ARCH_I386) ∧
    (set_seccomp_filters_assemble (fun _ => true) AV_64 filters_127).toOption.map
        (fun prog => seccomp_run_filter prog { nr := 0, arch := AUDIT_ARCH_I386 })
      = some (some (SECCOMP_RET_TRACE + 1)) ∧
    (set_seccomp_filters_assemble (fun _ => true) AV_64 filters_127).toOption.map
        (fun prog => seccomp_run_filter prog { nr := 1000, arch := AUDIT_ARCH_I386 })
      = some (some SECCOMP_RET_ALLOW) := by
  refine ⟨by decide, ?_, ?_⟩
  · decide
  · decide

/-- C2 (fails on the code): for 127 traced syscalls `start_arch_section` does not fail,
and the false-branch offset it stores in the guard is 0, not 2 * 127 + 2 = 256. -/
theorem C2_guard_offset_wraps_at_127 :
    start_arch_section (fun _ => true) { len := 0, filter := [] } AUDIT_ARCH_X86_64 127
      = .ok { len := 3, filter :=
          [ { code := 0x20, jt := 0, jf := 0, k := 4 },
            { code := 0x15, jt := 0, jf := 0, k := AUDIT_ARCH_X86_64 },
            { code := 0x20, jt := 0, jf := 0, k := 0 } ] } ∧
    2 * 127 + 2 = 256 ∧ ¬ (2 * 127 + 2 ≤ UINT8_MAX) := by
  refine ⟨rfl, by decide, by decide⟩

/-- C3: in a program assembled without error, with every section's skip distance within
the 8-bit field (at most 126 traced syscalls per architecture), a context whose
architecture is that of a table entry and whose syscall number is a traced value `K`
(non-negative as an `int`) of the first such entry gets the verdict
`SECCOMP_RET_TRACE + F` of the first list entry with value `K`: the 32-bit value of that
C expression, which is the plain sum whenever the sum is a 32-bit value. -/
theorem C3_traced_syscall_verdict (alloc : Nat → Bool) (AV : Nat) (filters : List Filter)
    (prog : sock_fprog) (d : seccomp_data) (f : Filter) (s : FilteredSyscall)
    (hasm : set_seccomp_filters_assemble alloc AV filters = .ok prog)
    (hty : ∀ g ∈ table_entries filters, g.architecture ≤ UINT32_MAX)
    (hskip : ∀ g ∈ table_entries filters, count_traced_syscalls AV g.syscalls ≤ 126)
    (hf : first_entry filters d.arch = some f)
    (hK : 0 ≤ cast_int d.nr)
    (hs : (listed_syscalls AV f.syscalls).find? (fun e => decide (e.value = d.nr)) = some s) :
    seccomp_run_filter prog d = some (to_u32 ((SECCOMP_RET_TRACE : Int) + s.flag)) ∧
    (0 ≤ s.flag → (SECCOMP_RET_TRACE : Int) + s.flag ≤ UINT32_MAX →
      seccomp_run_filter prog d = some (SECCOMP_RET_TRACE + s.flag.toNat)) := by
  have hrun := seccomp_run_filter_matching alloc AV filters prog d f hasm hty hskip hf
  have hfind : (traced_syscalls AV f.syscalls).find? (fun e => decide (e.value = d.nr))
      = some s := by
    unfold traced_syscalls
    rw [find_filter_of_imp _ _ _ _, hs]
    intro x hx
    have : x.value = d.nr := by simpa using hx
    simp [this, hK]
  have hv : section_verdict (traced_syscalls AV f.syscalls) d.nr
      = to_u32 ((SECCOMP_RET_TRACE : Int) + s.flag) := by
    simp [section_verdict, hfind]
  rw [hv] at hrun
  refine ⟨hrun, fun h0 h1 => ?_⟩
  rw [hrun, to_u32_of_range _ (by simp only [SECCOMP_RET_TRACE]; omega)
    (by simp only [SECCOMP_RET_TRACE, UINT32_MAX] at h1 ⊢; omega)]
  congr 1
  simp only [SECCOMP_RET_TRACE]
  omega

theorem C3_traced_syscall_verdict_witness :
    set_seccomp_filters_assemble (fun _ => true) AV_64 filters_x86 = .ok program_x86 ∧
    seccomp_run_filter program_x86 { nr := 2, arch := AUDIT_ARCH_X86_64 }
      = some (SECCOMP_RET_TRACE + 1) :=
  ⟨rfl,
   (C3_traced_syscall_verdict (fun _ => true) AV_64 filters_x86 program_x86
      { nr := 2, arch := AUDIT_ARCH_X86_64 }
      { architecture := AUDIT_ARCH_X86_64,
        syscalls := [⟨1, 0⟩, ⟨18446744073709551615, 0⟩, ⟨2, 1⟩, ⟨AV_64, 0⟩] }
      ⟨2, 1⟩ rfl (by decide) (by decide) rfl (by decide) rfl).1⟩

/-- C4: in a program assembled without error, with every section's skip distance within
the 8-bit field (at most 126 traced syscalls per architecture), a context whose
architecture is that of a table entry and whose syscall number is none of the traced
values of the first such entry gets the verdict `SECCOMP_RET_ALLOW`. -/
theorem C4_untraced_syscall_allowed (alloc : Nat → Bool) (AV : Nat) (filters : List Filter)
    (prog : sock_fprog) (d : seccomp_data) (f : Filter)
    (hasm : set_seccomp_filters_assemble alloc AV filters = .ok prog)
    (hty : ∀ g ∈ table_entries filters, g.architecture ≤ UINT32_MAX)
    (hskip : ∀ g ∈ table_entries filters, count_traced_syscalls AV g.syscalls ≤ 126)
    (hf : first_entry filters d.arch = some f)
    (hnot : ∀ e ∈ traced_syscalls AV f.syscalls, e.value ≠ d.nr) :
    seccomp_run_filter prog d = some SECCOMP_RET_ALLOW := by
  have hrun := seccomp_run_filter_matching alloc AV filters prog d f hasm hty hskip hf
  have hfind : (traced_syscalls AV f.syscalls).find? (fun e => decide (e.value = d.nr))
      = none := by
    rw [List.find?_eq_none]
    intro x hx
    simpa using hnot x hx
  rw [hrun]
  simp [section_verdict, hfind]

theorem C4_untraced_syscall_allowed_witness :
    seccomp_run_filter program_x86 { nr := 7, arch := AUDIT_ARCH_I386 }
      = some SECCOMP_RET_ALLOW :=
  C4_untraced_syscall_allowed (fun _ => true) AV_64 filters_x86 program_x86
    { nr := 7, arch := AUDIT_ARCH_I386 }
    { architecture := AUDIT_ARCH_I386, syscalls := [⟨5, 0⟩, ⟨AV_64, 0⟩] }
    rfl (by decide) (by decide) rfl (by decide)

/-! ## Lemmas on the functions of `child.c` -/

theorem getD_map_range (W : Nat) (f : Nat → Nat) (j : Nat) (hj : j < W) :
    ((List.range W).map f).getD j 0 = f j := by
  simp [List.getD_eq_getElem?_getD, List.getElem?_range hj]

theorem store_word_frame (W : Nat) (mem : Nat → Nat) (addr : Nat) (word : List Nat) (a : Nat)
    (h : ∀ j < W, (addr + j) % ADDR_MOD W ≠ a) : store_word W mem addr word a = mem a := by
  have hnone : (List.range W).find? (fun j => decide ((addr + j) % ADDR_MOD W = a)) = none := by
    rw [List.find?_range_eq_none]
    intro i hi
    simp [h i hi]
  simp only [store_word, hnone]

theorem store_word_inside (W : Nat) (mem : Nat → Nat) (addr : Nat) (word : List Nat) (a : Nat)
    (hwrap : addr + W ≤ ADDR_MOD W) (h1 : addr ≤ a) (h2 : a < addr + W) :
    store_word W mem addr word a = word.getD (a - addr) 0 := by
  have hsome : (List.range W).find? (fun j => decide ((addr + j) % ADDR_MOD W = a))
      = some (a - addr) := by
    rw [List.find?_range_eq_some]
    refine ⟨?_, ?_, ?_⟩
    · have : (addr + (a - addr)) % ADDR_MOD W = a := by
        rw [Nat.mod_eq_of_lt (by omega)]; omega
      simp [this]
    · simp only [List.mem_range]; omega
    · intro j hj
      have : (addr + j) % ADDR_MOD W ≠ a := by
        rw [Nat.mod_eq_of_lt (by omega)]; omega
      simp [this]
  simp only [store_word, hsome]

theorem ptrace_POKEDATA_mem (W : Nat) (t : Tracee) (addr : Nat) (word : List Nat) :
    (ptrace_POKEDATA W t addr word).2.mem
      = if t.ok (.POKEDATA addr word) then store_word W t.mem addr word else t.mem := by
  unfold ptrace_POKEDATA
  split <;> rfl

theorem ptrace_POKEDATA_ok (W : Nat) (t : Tracee) (addr : Nat) (word : List Nat) :
    (ptrace_POKEDATA W t addr word).2.ok = t.ok := by
  unfold ptrace_POKEDATA
  split <;> rfl

theorem copy_to_child_words_spec (W A : Nat) (src : Nat → Nat) :
    ∀ (n i : Nat) (t : Tracee),
      (copy_to_child_words W A src n i t).1 = some () ∧
      (copy_to_child_words W A src n i t).2.ok = t.ok ∧
      ∀ a, A + (i + n) * W ≤ ADDR_MOD W → (a < A + i * W ∨ A + (i + n) * W ≤ a) →
        (copy_to_child_words W A src n i t).2.mem a = t.mem a := by
  intro n
  induction n with
  | zero => intro i t; simp [copy_to_child_words]
  | succ n ih =>
    intro i t
    have hstep : copy_to_child_words W A src (n + 1) i t
        = copy_to_child_words W A src n (i + 1)
            (ptrace_POKEDATA W t (word_ptr W A i) (buffer_word W src i)).2 := by
      simp [copy_to_child_words]
    rw [hstep]
    obtain ⟨h1, h2, h3⟩ := ih (i + 1)
      (ptrace_POKEDATA W t (word_ptr W A i) (buffer_word W src i)).2
    refine ⟨h1, by rw [h2, ptrace_POKEDATA_ok], ?_⟩
    intro a hw ha
    have e1 : (i + (n + 1)) * W = i * W + n * W + W := by ring
    have e2 : (i + 1 + n) * W = i * W + n * W + W := by ring
    have e3 : (i + 1) * W = i * W + W := by ring
    rw [h3 a (by omega) (by omega), ptrace_POKEDATA_mem]
    split
    · apply store_word_frame
      intro j hj
      have hp : word_ptr W A i = A + i * W := Nat.mod_eq_of_lt (by omega)
      rw [hp, Nat.mod_eq_of_lt (by omega)]
      omega
    · rfl
theorem div_mul_words (W L : Nat) : (L - L % W) / W * W + L % W = L := by
  have hd : W ∣ L - L % W := Nat.dvd_sub_mod L
  rw [Nat.div_mul_cancel hd]
  have := Nat.mod_le L W
  omega

theorem load_word_getD (W : Nat) (mem : Nat → Nat) (addr j : Nat) (hj : j < W) :
    (load_word W mem addr).getD j 0 = mem ((addr + j) % ADDR_MOD W) :=
  getD_map_range W _ j hj

/-- Whatever the kernel answers, `copy_to_child` leaves every byte outside the
destination range as it was. -/
theorem copy_to_child_mem_frame (W : Nat) (t : Tracee) (A : Nat) (src : Nat → Nat) (L : Nat)
    (hW : 0 < W) (hwrap : A + L + W ≤ ADDR_MOD W) (a : Nat) (ha : a < A ∨ A + L ≤ a) :
    (copy_to_child W t A src L).2.mem a = t.mem a := by
  have hL := div_mul_words W L
  have hlt : L % W < W := Nat.mod_lt L hW
  obtain ⟨h1, _, h3⟩ := copy_to_child_words_spec W A src ((L - L % W) / W) 0 t
  have h3a := h3 a
  simp only [Nat.zero_add, Nat.zero_mul, Nat.add_zero] at h3a
  have hmem1 := h3a (by omega) (by omega)
  unfold copy_to_child
  simp only []
  rcases hres : copy_to_child_words W A src ((L - L % W) / W) 0 t with ⟨r, t1⟩
  rw [hres] at h1 hmem1
  simp only at h1 hmem1
  subst h1
  simp only []
  have hp : word_ptr W A ((L - L % W) / W) = A + (L - L % W) / W * W :=
    Nat.mod_eq_of_lt (by omega)
  rw [hp]
  unfold ptrace_PEEKDATA
  by_cases hpeek : t1.ok (.PEEKDATA (A + (L - L % W) / W * W)) = true
  · simp only [hpeek, if_true]
    have hnot : ∀ s : Nat, ¬ (s < 0) := fun s => Nat.not_lt_zero s
    simp only [hnot, if_false]
    rw [ptrace_POKEDATA_mem]
    split
    · by_cases hin : A + (L - L % W) / W * W ≤ a ∧ a < A + (L - L % W) / W * W + W
      · rw [store_word_inside W _ _ _ a (by omega) hin.1 hin.2,
          getD_map_range W _ _ (by omega), if_neg (by omega),
          load_word_getD W _ _ _ (by omega)]
        have : (A + (L - L % W) / W * W + (a - (A + (L - L % W) / W * W))) % ADDR_MOD W = a := by
          rw [Nat.mod_eq_of_lt (by omega)]; omega
        rw [this]
        exact hmem1
      · rw [store_word_frame W _ _ _ a]
        · exact hmem1
        · intro j hj
          rw [Nat.mod_eq_of_lt (by omega)]
          omega
    · exact hmem1
  · simp only [hpeek]
    exact hmem1

theorem copy_to_child_returns (W : Nat) (t : Tracee) (A : Nat) (src : Nat → Nat) (L : Nat)
    (hok : ∀ r, t.ok r = true) : (copy_to_child W t A src L).1 = some () := by
  obtain ⟨h1, h2, _⟩ := copy_to_child_words_spec W A src ((L - L % W) / W) 0 t
  unfold copy_to_child
  simp only []
  rcases hres : copy_to_child_words W A src ((L - L % W) / W) 0 t with ⟨r, t1⟩
  rw [hres] at h1 h2
  simp only at h1 h2
  subst h1
  have hnot : ∀ s : Nat, ¬ (s < 0) := fun s => Nat.not_lt_zero s
  simp only [ptrace_PEEKDATA, h2, hok, if_true, hnot, if_false]

theorem peek_word_getD (W : Nat) (t : Tracee) (A i j : Nat) (hj : j < W) :
    (load_word W t.mem (word_ptr W A i)).getD j 0 = t.byte_from W A (i * W + j) := by
  rw [load_word_getD W _ _ _ hj]
  unfold word_ptr Tracee.byte_from
  rw [Nat.mod_add_mod, Nat.add_assoc]

theorem buffer_store_inside (W : Nat) (buffer : Nat → Nat) (i : Nat) (word : List Nat) (b : Nat)
    (h1 : i * W ≤ b) (h2 : b < i * W + W) :
    buffer_store W buffer i word b = word.getD (b - i * W) 0 := by
  simp [buffer_store, h1, h2]

theorem buffer_store_outside (W : Nat) (buffer : Nat → Nat) (i : Nat) (word : List Nat) (b : Nat)
    (h : b < i * W ∨ i * W + W ≤ b) :
    buffer_store W buffer i word b = buffer b := by
  have : ¬ (i * W ≤ b ∧ b < i * W + W) := by omega
  simp [buffer_store, this]

/-- The word loop of `get_child_string` when none of the bytes it covers is zero. -/
theorem get_child_string_words_no_zero (W A : Nat) :
    ∀ (n i : Nat) (t : Tracee) (dest : Nat → Nat),
      (∀ a, t.ok (.PEEKDATA a) = true) →
      (∀ k, i * W ≤ k → k < (i + n) * W → t.byte_from W A k ≠ 0) →
      ∃ dest' t',
        get_child_string_words W A n i t dest = (.completed, dest', t') ∧
        t'.mem = t.mem ∧ t'.ok = t.ok ∧
        (∀ b, i * W ≤ b → b < (i + n) * W → dest' b = t.byte_from W A b) ∧
        (∀ b, (b < i * W ∨ (i + n) * W ≤ b) → dest' b = dest b) := by
  intro n
  induction n with
  | zero =>
    intro i t dest _ _
    refine ⟨dest, t, rfl, rfl, rfl, ?_, fun b _ => rfl⟩
    intro b h1 h2
    simp only [Nat.add_zero] at h2
    omega
  | succ n ih =>
    intro i t dest hok hnz
    have e1 : (i + (n + 1)) * W = i * W + W + n * W := by ring
    have e2 : (i + 1 + n) * W = i * W + W + n * W := by ring
    have e3 : (i + 1) * W = i * W + W := by ring
    have hnone : (List.range W).find?
        (fun j => decide ((load_word W t.mem (word_ptr W A i)).getD j 0 = 0)) = none := by
      rw [List.find?_range_eq_none]
      intro j hj
      rw [peek_word_getD W t A i j hj]
      have := hnz (i * W + j) (by omega) (by omega)
      simp [this]
    obtain ⟨dest', t', hrun, hm, ho, hin, hout⟩ := ih (i + 1)
      (t.record (.PEEKDATA (word_ptr W A i)))
      (buffer_store W dest i (load_word W t.mem (word_ptr W A i)))
      hok (fun k h1 h2 => hnz k (by omega) (by omega))
    refine ⟨dest', t', ?_, hm, ho, ?_, ?_⟩
    · rw [get_child_string_words]
      simp only [ptrace_PEEKDATA, hok, if_true, hnone]
      exact hrun
    · intro b h1 h2
      by_cases hb : b < i * W + W
      · rw [hout b (by omega), buffer_store_inside W _ _ _ b h1 hb,
          peek_word_getD W t A i _ (by omega)]
        congr 1
        omega
      · exact hin b (by omega) (by omega)
    · intro b hb
      rw [hout b (by omega), buffer_store_outside W _ _ _ b (by omega)]

/-- The word loop of `get_child_string` when the first zero byte, at index `z`, lies in
the words it covers: it returns `z`. -/
theorem get_child_string_words_zero (W A z : Nat) :
    ∀ (n i : Nat) (t : Tracee) (dest : Nat → Nat),
      (∀ a, t.ok (.PEEKDATA a) = true) →
      i * W ≤ z → z < (i + n) * W → t.byte_from W A z = 0 →
      (∀ k, i * W ≤ k → k < z → t.byte_from W A k ≠ 0) →
      ∃ dest' t',
        get_child_string_words W A n i t dest = (.returned z, dest', t') ∧
        (∀ b, i * W ≤ b → b ≤ z → dest' b = t.byte_from W A b) ∧
        (∀ b, (b < i * W ∨ (i + n) * W ≤ b) → dest' b = dest b) := by
  intro n
  induction n with
  | zero =>
    intro i t dest _ h1 h2
    simp only [Nat.add_zero] at h2
    omega
  | succ n ih =>
    intro i t dest hok h1 h2 hz hnz
    have e1 : (i + (n + 1)) * W = i * W + W + n * W := by ring
    have e2 : (i + 1 + n) * W = i * W + W + n * W := by ring
    have e3 : (i + 1) * W = i * W + W := by ring
    by_cases hcase : z < i * W + W
    · have hsome : (List.range W).find?
          (fun j => decide ((load_word W t.mem (word_ptr W A i)).getD j 0 = 0))
          = some (z - i * W) := by
        rw [List.find?_range_eq_some]
        refine ⟨?_, ?_, ?_⟩
        · rw [peek_word_getD W t A i _ (by omega)]
          have : i * W + (z - i * W) = z := by omega
          simp [this, hz]
        · simp only [List.mem_range]; omega
        · intro j hj
          rw [peek_word_getD W t A i j (by omega)]
          have := hnz (i * W + j) (by omega) (by omega)
          simp [this]
      refine ⟨buffer_store W dest i (load_word W t.mem (word_ptr W A i)),
        t.record (.PEEKDATA (word_ptr W A i)), ?_, ?_, ?_⟩
      · rw [get_child_string_words]
        simp only [ptrace_PEEKDATA, hok, if_true, hsome]
        have : i * W + (z - i * W) = z := by omega
        rw [this]
      · intro b hb1 hb2
        rw [buffer_store_inside W _ _ _ b hb1 (by omega), peek_word_getD W t A i _ (by omega)]
        congr 1
        omega
      · intro b hb
        rw [buffer_store_outside W _ _ _ b (by omega)]
    · have hnone : (List.range W).find?
          (fun j => decide ((load_word W t.mem (word_ptr W A i)).getD j 0 = 0)) = none := by
        rw [List.find?_range_eq_none]
        intro j hj
        rw [peek_word_getD W t A i j hj]
        have := hnz (i * W + j) (by omega) (by omega)
        simp [this]
      obtain ⟨dest', t', hrun, hin, hout⟩ := ih (i + 1)
        (t.record (.PEEKDATA (word_ptr W A i)))
        (buffer_store W dest i (load_word W t.mem (word_ptr W A i)))
        hok (by omega) (by omega) hz (fun k h1 h2 => hnz k (by omega) h2)
      refine ⟨dest', t', ?_, ?_, ?_⟩
      · rw [get_child_string_words]
        simp only [ptrace_PEEKDATA, hok, if_true, hnone]
        exact hrun
      · intro b hb1 hb2
        by_cases hb : b < i * W + W
        · rw [hout b (by omega), buffer_store_inside W _ _ _ b hb1 hb,
            peek_word_getD W t A i _ (by omega)]
          congr 1
          omega
        · exact hin b (by omega) hb2
      · intro b hb
        rw [hout b (by omega), buffer_store_outside W _ _ _ b (by omega)]

/-- The byte loop of `get_child_string` when none of the bytes it covers is zero. -/
theorem get_child_string_bytes_no_zero (W : Nat) (word : List Nat) (i : Nat) :
    ∀ (n j : Nat) (dest : Nat → Nat),
      (∀ k, j ≤ k → k < j + n → word.getD k 0 ≠ 0) →
      ∃ dest',
        get_child_string_bytes W word i n j dest = (j + n, dest') ∧
        (∀ k, j ≤ k → k < j + n → dest' (i * W + k) = word.getD k 0) ∧
        (∀ b, (b < i * W + j ∨ i * W + j + n ≤ b) → dest' b = dest b) := by
  intro n
  induction n with
  | zero =>
    intro j dest _
    exact ⟨dest, rfl, fun k h1 h2 => by omega, fun b _ => rfl⟩
  | succ n ih =>
    intro j dest hnz
    have hj := hnz j (Nat.le_refl j) (by omega)
    obtain ⟨dest', hrun, hin, hout⟩ := ih (j + 1)
      (fun b => if b = i * W + j then word.getD j 0 else dest b)
      (fun k h1 h2 => hnz k (by omega) (by omega))
    refine ⟨dest', ?_, ?_, ?_⟩
    · rw [get_child_string_bytes]
      simp only [hj, if_false]
      rw [hrun]
      congr 1
      omega
    · intro k h1 h2
      by_cases hk : k = j
      · subst hk
        rw [hout (i * W + k) (by omega)]
        simp
      · exact hin k (by omega) (by omega)
    · intro b hb
      rw [hout b (by omega)]
      have : ¬ (b = i * W + j) := by omega
      simp [this]

/-- The byte loop of `get_child_string` when the first zero byte of the word from `j`
on is at `z`: the loop stops there, after copying it. -/
theorem get_child_string_bytes_zero (W : Nat) (word : List Nat) (i z : Nat) :
    ∀ (n j : Nat) (dest : Nat → Nat),
      j ≤ z → z < j + n → word.getD z 0 = 0 →
      (∀ k, j ≤ k → k < z → word.getD k 0 ≠ 0) →
      ∃ dest',
        get_child_string_bytes W word i n j dest = (z, dest') ∧
        (∀ k, j ≤ k → k ≤ z → dest' (i * W + k) = word.getD k 0) ∧
        (∀ b, (b < i * W + j ∨ i * W + j + n ≤ b) → dest' b = dest b) := by
  intro n
  induction n with
  | zero => intro j dest h1 h2; omega
  | succ n ih =>
    intro j dest h1 h2 hz hnz
    by_cases hjz : j = z
    · subst hjz
      refine ⟨fun b => if b = i * W + j then word.getD j 0 else dest b, ?_, ?_, ?_⟩
      · rw [get_child_string_bytes]
        simp only [hz, if_true]
      · intro k hk1 hk2
        have : k = j := by omega
        subst this
        simp
      · intro b hb
        have : ¬ (b = i * W + j) := by omega
        simp [this]
    · have hj := hnz j (Nat.le_refl j) (by omega)
      obtain ⟨dest', hrun, hin, hout⟩ := ih (j + 1)
        (fun b => if b = i * W + j then word.getD j 0 else dest b)
        (by omega) (by omega) hz (fun k h1 h2 => hnz k (by omega) h2)
      refine ⟨dest', ?_, ?_, ?_⟩
      · rw [get_child_string_bytes]
        simp only [hj, if_false]
        exact hrun
      · intro k hk1 hk2
        by_cases hk : k = j
        · subst hk
          rw [hout (i * W + k) (by omega)]
          simp
        · exact hin k (by omega) hk2
      · intro b hb
        rw [hout b (by omega)]
        have : ¬ (b = i * W + j) := by omega
        simp [this]

/-- When the first zero byte of the source lies at index `z` below `max_size`,
`get_child_string` returns `z` and has copied the bytes up to and including it. -/
theorem get_child_string_zero (W : Nat) (t : Tracee) (dest : Nat → Nat) (A M z : Nat)
    (hW : 0 < W) (hok : ∀ a, t.ok (.PEEKDATA a) = true)
    (hzM : z < M) (hz : t.byte_from W A z = 0)
    (hnz : ∀ k, k < z → t.byte_from W A k ≠ 0) :
    ∃ dest' t',
      get_child_string W t dest A M = (some z, dest', t') ∧
      (∀ b, b ≤ z → dest' b = t.byte_from W A b) ∧
      (∀ b, M ≤ b → dest' b = dest b) := by
  have hM := div_mul_words W M
  have hlt : M % W < W := Nat.mod_lt M hW
  unfold get_child_string
  simp only []
  by_cases hcase : z < (M - M % W) / W * W
  · obtain ⟨dest', t', hrun, hin, hout⟩ := get_child_string_words_zero W A z
      ((M - M % W) / W) 0 t dest hok (by omega) (by simpa using hcase) hz
      (fun k _ h2 => hnz k h2)
    rw [hrun]
    refine ⟨dest', t', rfl, fun b hb => hin b (by omega) hb, fun b hb => hout b ?_⟩
    simp only [Nat.zero_add]
    omega
  · obtain ⟨dest1, t1, hrun, hm, ho, hin, hout⟩ := get_child_string_words_no_zero W A
      ((M - M % W) / W) 0 t dest hok
      (fun k _ h2 => hnz k (by simp only [Nat.zero_add] at h2; omega))
    simp only [Nat.zero_add, Nat.zero_mul] at hin hout
    rw [hrun]
    simp only [ptrace_PEEKDATA, ho, hok, if_true]
    have hword : ∀ j, j < W → (load_word W t1.mem (word_ptr W A ((M - M % W) / W))).getD j 0
        = t.byte_from W A ((M - M % W) / W * W + j) := by
      intro j hj
      rw [peek_word_getD W t1 A _ j hj]
      unfold Tracee.byte_from
      rw [hm]
    obtain ⟨dest2, hrun2, hin2, hout2⟩ := get_child_string_bytes_zero W
      (load_word W t1.mem (word_ptr W A ((M - M % W) / W))) ((M - M % W) / W)
      (z - (M - M % W) / W * W) (M % W) 0 dest1 (Nat.zero_le _) (by omega)
      (by rw [hword _ (by omega)]
          have : (M - M % W) / W * W + (z - (M - M % W) / W * W) = z := by omega
          rw [this]; exact hz)
      (fun k _ h2 => by
        rw [hword _ (by omega)]
        exact hnz _ (by omega))
    rw [hrun2]
    refine ⟨dest2, t1.record (.PEEKDATA (word_ptr W A ((M - M % W) / W))), ?_, ?_, ?_⟩
    · have : (M - M % W) / W * W + (z - (M - M % W) / W * W) = z := by omega
      simp only [this]
    · intro b hb
      by_cases hb2 : b < (M - M % W) / W * W
      · rw [hout2 b (by omega), hin b (Nat.zero_le _) hb2]
      · have := hin2 (b - (M - M % W) / W * W) (Nat.zero_le _) (by omega)
        have e : (M - M % W) / W * W + (b - (M - M % W) / W * W) = b := by omega
        rw [e] at this
        rw [this, hword _ (by omega), e]
    · intro b hb
      rw [hout2 b (by omega), hout b (by omega)]

/-- When none of the first `max_size` bytes of the source is zero, `get_child_string`
returns `max_size` and has copied these bytes. -/
theorem get_child_string_no_zero (W : Nat) (t : Tracee) (dest : Nat → Nat) (A M : Nat)
    (hW : 0 < W) (hok : ∀ a, t.ok (.PEEKDATA a) = true)
    (hnz : ∀ k, k < M → t.byte_from W A k ≠ 0) :
    ∃ dest' t',
      get_child_string W t dest A M = (some M, dest', t') ∧
      (∀ b, b < M → dest' b = t.byte_from W A b) ∧
      (∀ b, M ≤ b → dest' b = dest b) := by
  have hM := div_mul_words W M
  have hlt : M % W < W := Nat.mod_lt M hW
  unfold get_child_string
  simp only []
  obtain ⟨dest1, t1, hrun, hm, ho, hin, hout⟩ := get_child_string_words_no_zero W A
    ((M - M % W) / W) 0 t dest hok
    (fun k _ h2 => hnz k (by simp only [Nat.zero_add] at h2; omega))
  simp only [Nat.zero_add, Nat.zero_mul] at hin hout
  rw [hrun]
  simp only [ptrace_PEEKDATA, ho, hok, if_true]
  have hword : ∀ j, j < W → (load_word W t1.mem (word_ptr W A ((M - M % W) / W))).getD j 0
      = t.byte_from W A ((M - M % W) / W * W + j) := by
    intro j hj
    rw [peek_word_getD W t1 A _ j hj]
    unfold Tracee.byte_from
    rw [hm]
  obtain ⟨dest2, hrun2, hin2, hout2⟩ := get_child_string_bytes_no_zero W
    (load_word W t1.mem (word_ptr W A ((M - M % W) / W))) ((M - M % W) / W)
    (M % W) 0 dest1
    (fun k _ h2 => by
      rw [hword _ (by omega)]
      exact hnz _ (by omega))
  rw [hrun2]
  refine ⟨dest2, t1.record (.PEEKDATA (word_ptr W A ((M - M % W) / W))), ?_, ?_, ?_⟩
  · simp only [Nat.zero_add, hM]
  · intro b hb
    by_cases hb2 : b < (M - M % W) / W * W
    · rw [hout2 b (by omega), hin b (Nat.zero_le _) hb2]
    · have := hin2 (b - (M - M % W) / W * W) (Nat.zero_le _) (by omega)
      have e : (M - M % W) / W * W + (b - (M - M % W) / W * W) = b := by omega
      rw [e] at this
      rw [this, hword _ (by omega), e]
  · intro b hb
    rw [hout2 b (by omega), hout b (by omega)]

theorem to_ulong_of_nonneg (W : Nat) (x : Int) (h0 : 0 ≤ x) (h1 : x < (ADDR_MOD W : Nat)) :
    to_ulong W x = x.toNat := by
  unfold to_ulong
  rw [Int.emod_eq_of_lt h0 h1]

theorem addr_mod_pos (W : Nat) : 0 < ADDR_MOD W := Nat.pos_pow_of_pos _ (by decide)

/-- What `resize_child_stack` does once the stack pointer has been read: the sanity
check rejects exactly the new values outside `1 .. ULONG_MAX - 1`, and otherwise the
exact difference is poked and returned. -/
theorem resize_child_stack_spec (W REG : Nat) (t : Tracee) (size : Int)
    (hpeek : t.ok (.PEEKUSER REG) = true) (hsp : t.user REG < ADDR_MOD W)
    (hsize : -((ADDR_MOD W : Nat) : Int) ≤ 2 * size ∧ 2 * size < (ADDR_MOD W : Nat)) :
    resize_child_stack W REG t size =
      if (t.user REG : Int) - size ≤ 0 ∧ 0 < size
          ∨ ((ULONG_MAX W : Nat) : Int) ≤ (t.user REG : Int) - size ∧ size < 0 then
        (none, t.record (.PEEKUSER REG))
      else
        (some ((t.user REG : Int) - size).toNat,
         (ptrace_POKEUSER W (t.record (.PEEKUSER REG)) REG
            ((t.user REG : Int) - size).toNat).2) := by
  have hN := addr_mod_pos W
  have hU : ((ULONG_MAX W : Nat) : Int) = ((ADDR_MOD W : Nat) : Int) - 1 := by
    have e : ULONG_MAX W = ADDR_MOD W - 1 := rfl
    rw [e]
    omega
  unfold resize_child_stack
  simp only [ptrace_PEEKUSER, hpeek, if_true]
  have hnot : ∀ s : Nat, ¬ (s < 0) := fun s => Nat.not_lt_zero s
  rcases lt_trichotomy size 0 with hneg | hzero | hpos
  · have h1 : to_ulong W (((ULONG_MAX W : Nat) : Int) + size)
        = (((ULONG_MAX W : Nat) : Int) + size).toNat :=
      to_ulong_of_nonneg W _ (by omega) (by omega)
    rw [h1]
    by_cases hrej : ((ULONG_MAX W : Nat) : Int) ≤ (t.user REG : Int) - size
    · have c1 : (size > 0 ∧ t.user REG ≤ to_ulong W size) ∨
          (size < 0 ∧ t.user REG ≥ (((ULONG_MAX W : Nat) : Int) + size).toNat) :=
        Or.inr ⟨hneg, by omega⟩
      have c2 : (t.user REG : Int) - size ≤ 0 ∧ 0 < size
          ∨ ((ULONG_MAX W : Nat) : Int) ≤ (t.user REG : Int) - size ∧ size < 0 :=
        Or.inr ⟨hrej, hneg⟩
      rw [if_pos c1, if_pos c2]
    · have c1 : ¬ ((size > 0 ∧ t.user REG ≤ to_ulong W size) ∨
          (size < 0 ∧ t.user REG ≥ (((ULONG_MAX W : Nat) : Int) + size).toNat)) := by
        rintro (⟨h, _⟩ | ⟨_, h⟩) <;> omega
      have c2 : ¬ ((t.user REG : Int) - size ≤ 0 ∧ 0 < size
          ∨ ((ULONG_MAX W : Nat) : Int) ≤ (t.user REG : Int) - size ∧ size < 0) := by
        rintro (⟨_, h⟩ | ⟨h, _⟩) <;> omega
      rw [if_neg c1, if_neg c2, to_ulong_of_nonneg W _ (by omega) (by omega)]
      simp only [hnot, if_false]
  · subst hzero
    have c1 : ¬ (((0 : Int) > 0 ∧ t.user REG ≤ to_ulong W 0) ∨
        ((0 : Int) < 0 ∧ t.user REG ≥ to_ulong W (((ULONG_MAX W : Nat) : Int) + 0))) := by
      rintro (⟨h, _⟩ | ⟨h, _⟩) <;> omega
    have c2 : ¬ ((t.user REG : Int) - 0 ≤ 0 ∧ (0 : Int) < 0
        ∨ ((ULONG_MAX W : Nat) : Int) ≤ (t.user REG : Int) - 0 ∧ (0 : Int) < 0) := by
      rintro (⟨_, h⟩ | ⟨_, h⟩) <;> omega
    rw [if_neg c1, if_neg c2, to_ulong_of_nonneg W _ (by omega) (by omega)]
    simp only [hnot, if_false]
  · have h1 : to_ulong W size = size.toNat := to_ulong_of_nonneg W _ (by omega) (by omega)
    rw [h1]
    by_cases hrej : (t.user REG : Int) - size ≤ 0
    · have c1 : (size > 0 ∧ t.user REG ≤ size.toNat) ∨
          (size < 0 ∧ t.user REG ≥ to_ulong W (((ULONG_MAX W : Nat) : Int) + size)) :=
        Or.inl ⟨hpos, by omega⟩
      have c2 : (t.user REG : Int) - size ≤ 0 ∧ 0 < size
          ∨ ((ULONG_MAX W : Nat) : Int) ≤ (t.user REG : Int) - size ∧ size < 0 :=
        Or.inl ⟨hrej, hpos⟩
      rw [if_pos c1, if_pos c2]
    · have c1 : ¬ ((size > 0 ∧ t.user REG ≤ size.toNat) ∨
          (size < 0 ∧ t.user REG ≥ to_ulong W (((ULONG_MAX W : Nat) : Int) + size))) := by
        rintro (⟨_, h⟩ | ⟨h, _⟩) <;> omega
      have c2 : ¬ ((t.user REG : Int) - size ≤ 0 ∧ 0 < size
          ∨ ((ULONG_MAX W : Nat) : Int) ≤ (t.user REG : Int) - size ∧ size < 0) := by
        rintro (⟨h, _⟩ | ⟨_, h⟩) <;> omega
      rw [if_neg c1, if_neg c2, to_ulong_of_nonneg W _ (by omega) (by omega)]
      simp only [hnot, if_false]

theorem ptrace_POKEUSER_log (W : Nat) (t : Tracee) (offset value : Nat) :
    (ptrace_POKEUSER W t offset value).2.log = t.log ++ [.POKEUSER offset value] := by
  unfold ptrace_POKEUSER
  split <;> rfl

theorem ptrace_POKEUSER_ok (W : Nat) (t : Tracee) (offset value : Nat) :
    (ptrace_POKEUSER W t offset value).2.ok = t.ok := by
  unfold ptrace_POKEUSER
  split <;> rfl

theorem ptrace_POKEUSER_user (W : Nat) (t : Tracee) (offset value : Nat)
    (h : t.ok (.POKEUSER offset value) = true) :
    (ptrace_POKEUSER W t offset value).2.user offset = value := by
  unfold ptrace_POKEUSER
  simp [h]

/-! ## The claims on `child.c` -/

/-- C5: with no address wrap and every request accepted, `copy_to_child` returns and
every byte of the tracee memory outside `[A, A + L)` keeps its value, in particular the
bytes from `A + L` to the end of the last word touched. -/
theorem C5_copy_to_child_frame (W : Nat) (t : Tracee) (A : Nat) (B : List Nat)
    (hW : 0 < W) (hwrap : A + B.length + W ≤ ADDR_MOD W) (hok : ∀ r, t.ok r = true) :
    (copy_to_child W t A (fun i => B.getD i 0) B.length).1 = some () ∧
    ∀ a, (a < A ∨ A + B.length ≤ a) →
      (copy_to_child W t A (fun i => B.getD i 0) B.length).2.mem a = t.mem a :=
  ⟨copy_to_child_returns W t A _ _ hok,
   fun a ha => copy_to_child_mem_frame W t A _ _ hW hwrap a ha⟩

theorem C5_copy_to_child_frame_witness :
    (copy_to_child 8 tracee_ab 1001 (fun i => [1, 2, 3, 4, 5, 6, 7, 8, 9, 10].getD i 0) 10).1
      = some () ∧
    (copy_to_child 8 tracee_ab 1001 (fun i => [1, 2, 3, 4, 5, 6, 7, 8, 9, 10].getD i 0)
      10).2.mem 1011 = tracee_ab.mem 1011 :=
  ⟨(C5_copy_to_child_frame 8 tracee_ab 1001 [1, 2, 3, 4, 5, 6, 7, 8, 9, 10] (by decide)
      (by decide) (fun _ => rfl)).1,
   (C5_copy_to_child_frame 8 tracee_ab 1001 [1, 2, 3, 4, 5, 6, 7, 8, 9, 10] (by decide)
      (by decide) (fun _ => rfl)).2 1011 (Or.inr (by decide))⟩

/-- C6 (fails on the code): for the string "ab" followed by a zero byte and a limit of
16 bytes, `get_child_string` returns 2, the size without the terminator, not 3. -/
theorem C6_returned_size_excludes_terminator :
    (∀ k, k < 2 → tracee_ab.byte_from 8 1000 k ≠ 0) ∧
    tracee_ab.byte_from 8 1000 2 = 0 ∧
    (get_child_string 8 tracee_ab (fun _ => 0) 1000 16).1 = some 2 ∧
    (get_child_string 8 tracee_ab (fun _ => 0) 1000 16).1 ≠ some (2 + 1) := by
  refine ⟨?_, by decide, by decide, by decide⟩
  intro k hk
  have : k = 0 ∨ k = 1 := by omega
  rcases this with rfl | rfl <;> decide

/-- C7: when the source holds the `N` non-zero bytes of `S` followed by a zero byte,
`N < max_size` and the read requests are accepted, `get_child_string` returns and the
destination buffer then holds `S` in its first `N` bytes and a zero byte at index `N`. -/
theorem C7_get_child_string_copies_string (W : Nat) (t : Tracee) (dest : Nat → Nat)
    (A M : Nat) (S : List Nat)
    (hW : 0 < W) (hok : ∀ a, t.ok (.PEEKDATA a) = true)
    (hS : ∀ k, k < S.length → t.byte_from W A k = S.getD k 0)
    (hnz : ∀ x ∈ S, x ≠ 0)
    (hterm : t.byte_from W A S.length = 0)
    (hM : S.length < M) :
    (get_child_string W t dest A M).1.isSome = true ∧
    (∀ k, k < S.length → (get_child_string W t dest A M).2.1 k = S.getD k 0) ∧
    (get_child_string W t dest A M).2.1 S.length = 0 := by
  obtain ⟨dest', t', hrun, hin, _⟩ := get_child_string_zero W t dest A M S.length hW hok hM
    hterm (fun k hk => by
      rw [hS k hk, List.getD_eq_getElem _ _ hk]
      exact hnz _ (List.getElem_mem _))
  rw [hrun]
  refine ⟨rfl, ?_, ?_⟩
  · intro k hk
    show dest' k = _
    rw [hin k (by omega), hS k hk]
  · show dest' S.length = 0
    rw [hin _ (Nat.le_refl _), hterm]

theorem C7_get_child_string_copies_string_witness :
    (get_child_string 8 tracee_ab (fun _ => 7) 1000 16).2.1 0 = 97 ∧
    (get_child_string 8 tracee_ab (fun _ => 7) 1000 16).2.1 1 = 98 ∧
    (get_child_string 8 tracee_ab (fun _ => 7) 1000 16).2.1 2 = 0 :=
  have h := C7_get_child_string_copies_string 8 tracee_ab (fun _ => 7) 1000 16 [97, 98]
    (by decide) (fun _ => rfl)
    (fun k hk => by
      have : k = 0 ∨ k = 1 := by simp only [List.length_cons, List.length_nil] at hk; omega
      rcases this with rfl | rfl <;> decide)
    (by decide) (by decide) (by decide)
  ⟨h.2.1 0 (by decide), h.2.1 1 (by decide), h.2.2⟩

/-- C8 (fails on the code): the tracee memory ends at address 4096 and the 8 bytes at
4088 hold no zero byte.  With a limit of 8 bytes, `get_child_string` reads the word at
4088, which holds the whole range, then the word at 4096, which the kernel refuses, and
exits instead of returning 8. -/
theorem C8_exit_on_word_past_limit :
    (∀ k, k < 8 → tracee_page_end.byte_from 8 4088 k ≠ 0) ∧
    tracee_page_end.ok (.PEEKDATA 4088) = true ∧
    tracee_page_end.ok (.PEEKDATA 4096) = false ∧
    (get_child_string 8 tracee_page_end (fun _ => 0) 4088 8).1 = none ∧
    (get_child_string 8 tracee_page_end (fun _ => 0) 4088 8).2.2.log
      = [.PEEKDATA 4088, .PEEKDATA 4096] := by
  refine ⟨fun k _ => ?_, by decide, by decide, by decide, by decide⟩
  show (255 : Nat) ≠ 0
  decide

/-- When every read request is accepted, `get_child_string` returns exactly `max_size`
if none of the first `max_size` bytes of the source is zero, and a value strictly below
`max_size` if one of them is. -/
theorem get_child_string_truncation (W : Nat) (t : Tracee) (dest : Nat → Nat) (A M : Nat)
    (hW : 0 < W) (hok : ∀ a, t.ok (.PEEKDATA a) = true) :
    ((∀ k, k < M → t.byte_from W A k ≠ 0) → (get_child_string W t dest A M).1 = some M) ∧
    ((∃ k, k < M ∧ t.byte_from W A k = 0) →
      ∃ r, (get_child_string W t dest A M).1 = some r ∧ r < M) := by
  constructor
  · intro hnz
    obtain ⟨dest', t', hrun, _, _⟩ := get_child_string_no_zero W t dest A M hW hok hnz
    rw [hrun]
  · intro hex
    classical
    have hz := Nat.find_spec hex
    obtain ⟨dest', t', hrun, _, _⟩ := get_child_string_zero W t dest A M (Nat.find hex) hW hok
      hz.1 hz.2 (fun k hk h0 => Nat.find_min hex hk ⟨by omega, h0⟩)
    exact ⟨Nat.find hex, by rw [hrun], hz.1⟩

/-- C9: `resize_child_stack` never wraps.  With the stack pointer `sp` read from the
USER area and `size` a `ssize_t`: if the exact integer `sp - size` is outside
`0 .. ULONG_MAX` the function exits having issued only the read request, so the
register is untouched; and whenever it returns a value, that value is the exact
integer `sp - size`, it is the value of the write request, and it is in the register
once the kernel has accepted that request. -/
theorem C9_resize_child_stack_never_wraps (W REG : Nat) (t : Tracee) (size : Int)
    (hpeek : t.ok (.PEEKUSER REG) = true) (hsp : t.user REG < ADDR_MOD W)
    (hsize : -((ADDR_MOD W : Nat) : Int) ≤ 2 * size ∧ 2 * size < (ADDR_MOD W : Nat)) :
    (((t.user REG : Int) - size < 0 ∨ ((ULONG_MAX W : Nat) : Int) < (t.user REG : Int) - size) →
      resize_child_stack W REG t size = (none, t.record (.PEEKUSER REG))) ∧
    (∀ v, (resize_child_stack W REG t size).1 = some v →
      (v : Int) = (t.user REG : Int) - size ∧
      (resize_child_stack W REG t size).2.log = t.log ++ [.PEEKUSER REG, .POKEUSER REG v] ∧
      (t.ok (.POKEUSER REG v) = true → (resize_child_stack W REG t size).2.user REG = v)) := by
  have hN := addr_mod_pos W
  have hU : ((ULONG_MAX W : Nat) : Int) = ((ADDR_MOD W : Nat) : Int) - 1 := by
    have e : ULONG_MAX W = ADDR_MOD W - 1 := rfl
    rw [e]
    omega
  rw [resize_child_stack_spec W REG t size hpeek hsp hsize]
  constructor
  · intro hout
    rw [if_pos (by omega)]
  · intro v hv
    by_cases hrej : (t.user REG : Int) - size ≤ 0 ∧ 0 < size
        ∨ ((ULONG_MAX W : Nat) : Int) ≤ (t.user REG : Int) - size ∧ size < 0
    · rw [if_pos hrej] at hv
      cases hv
    · rw [if_neg hrej] at hv ⊢
      simp only [Option.some.injEq] at hv
      subst hv
      refine ⟨by omega, ?_, ?_⟩
      · rw [ptrace_POKEUSER_log]
        simp [Tracee.record]
      · intro hpoke
        exact ptrace_POKEUSER_user W _ REG _ hpoke

theorem C9_resize_child_stack_never_wraps_witness :
    (resize_child_stack 8 REG_SP_X86_64 tracee_zero 16
        = (none, tracee_zero.record (.PEEKUSER REG_SP_X86_64))) ∧
    (∀ v, (resize_child_stack 8 REG_SP_X86_64 tracee_stack (-16)).1 = some v →
      (v : Int) = (tracee_stack.user REG_SP_X86_64 : Int) - (-16)) :=
  ⟨(C9_resize_child_stack_never_wraps 8 REG_SP_X86_64 tracee_zero 16 rfl (by decide)
      (by decide)).1 (Or.inl (by decide)),
   fun v hv => ((C9_resize_child_stack_never_wraps 8 REG_SP_X86_64 tracee_stack (-16) rfl
      (by decide) (by decide)).2 v hv).1⟩

/-- C10 (fails on the code): from a stack pointer 0, `resize_child_stack(-1)` succeeds
and gives 1, and the following `resize_child_stack(1)` exits on the sanity check
instead of restoring 0. -/
theorem C10_round_trip_fails_at_zero :
    (resize_child_stack 8 REG_SP_X86_64 tracee_zero (-1)).1 = some 1 ∧
    (resize_child_stack 8 REG_SP_X86_64
      (resize_child_stack 8 REG_SP_X86_64 tracee_zero (-1)).2 1).1 = none := by
  constructor <;> decide

/-- C10 (as amended): when the kernel accepts the register requests, `size` and `-size`
are both `ssize_t` values, and the stack pointer is not 0 if `size` is negative and not
`ULONG_MAX` if `size` is positive, a successful `resize_child_stack(size)` followed by
`resize_child_stack(-size)` succeeds, returns the original stack pointer and leaves it
in the register. -/
theorem C10_resize_child_stack_round_trip (W REG : Nat) (t : Tracee) (size : Int) (v : Nat)
    (hok : ∀ r, t.ok r = true) (hsp : t.user REG < ADDR_MOD W)
    (hlow : size < 0 → 0 < t.user REG) (hhigh : 0 < size → t.user REG < ULONG_MAX W)
    (hsize : -((ADDR_MOD W : Nat) : Int) < 2 * size ∧ 2 * size < (ADDR_MOD W : Nat))
    (hfirst : (resize_child_stack W REG t size).1 = some v) :
    (resize_child_stack W REG (resize_child_stack W REG t size).2 (-size)).1
      = some (t.user REG) ∧
    (resize_child_stack W REG (resize_child_stack W REG t size).2 (-size)).2.user REG
      = t.user REG := by
  have hN := addr_mod_pos W
  have hUn : ULONG_MAX W = ADDR_MOD W - 1 := rfl
  have hU : ((ULONG_MAX W : Nat) : Int) = ((ADDR_MOD W : Nat) : Int) - 1 := by
    rw [hUn]
    omega
  have hspec := resize_child_stack_spec W REG t size (hok _) hsp ⟨by omega, hsize.2⟩
  by_cases hrej : (t.user REG : Int) - size ≤ 0 ∧ 0 < size
      ∨ ((ULONG_MAX W : Nat) : Int) ≤ (t.user REG : Int) - size ∧ size < 0
  · rw [hspec, if_pos hrej] at hfirst
    cases hfirst
  · rw [if_neg hrej] at hspec
    have hok1 : ∀ r, (resize_child_stack W REG t size).2.ok r = true := by
      intro r
      rw [hspec, ptrace_POKEUSER_ok]
      exact hok r
    have huser1 : (resize_child_stack W REG t size).2.user REG
        = ((t.user REG : Int) - size).toNat := by
      rw [hspec]
      exact ptrace_POKEUSER_user W _ REG _ (hok _)
    have hspec2 := resize_child_stack_spec W REG (resize_child_stack W REG t size).2 (-size)
      (hok1 _) (by rw [huser1]; omega) ⟨by omega, by omega⟩
    have hback : ((((t.user REG : Int) - size).toNat : Nat) : Int) - -size = t.user REG := by
      omega
    have hrej2 : ¬ ((((resize_child_stack W REG t size).2.user REG : Nat) : Int) - -size ≤ 0
          ∧ 0 < -size
        ∨ ((ULONG_MAX W : Nat) : Int)
            ≤ (((resize_child_stack W REG t size).2.user REG : Nat) : Int) - -size
          ∧ -size < 0) := by
      rw [huser1, hback]
      omega
    rw [if_neg hrej2, huser1, hback] at hspec2
    rw [hspec2]
    refine ⟨by simp, ?_⟩
    apply ptrace_POKEUSER_user
    show (resize_child_stack W REG t size).2.ok _ = true
    exact hok1 _

theorem C10_resize_child_stack_round_trip_witness :
    (resize_child_stack 8 REG_SP_X86_64
      (resize_child_stack 8 REG_SP_X86_64 tracee_stack 16).2 (-16)).1
      = some (tracee_stack.user REG_SP_X86_64) :=
  (C10_resize_child_stack_round_trip 8 REG_SP_X86_64 tracee_stack 16 140737488351216
    (fun _ => rfl) (by decide) (by decide) (by decide) (by decide) (by decide)).1

/-! ## Success of the assembling, and the length of the program -/

theorem add_statements_succeeds (alloc : Nat → Bool) (halloc : ∀ n, alloc n = true)
    (p : sock_fprog) (st : List sock_filter) :
    add_statements alloc p st = .ok { p with filter := p.filter ++ st } := by
  simp [add_statements, halloc]

theorem add_traced_syscalls_succeeds (alloc : Nat → Bool) (halloc : ∀ n, alloc n = true)
    (AV : Nat) (l : List FilteredSyscall) :
    ∀ p : sock_fprog, (∀ s ∈ traced_syscalls AV l, s.value ≤ UINT32_MAX) →
      ∃ q, add_traced_syscalls alloc AV l p = .ok q := by
  induction l with
  | nil => intro p _; exact ⟨p, rfl⟩
  | cons s rest ih =>
    intro p hv
    rw [traced_syscalls_cons] at hv
    unfold add_traced_syscalls
    by_cases h1 : s.value = AV
    · exact ⟨p, by simp [h1]⟩
    · by_cases h2 : cast_int s.value < 0
      · have h2' : ¬ (0 ≤ cast_int s.value) := by omega
        simp only [h1, h2', if_false] at hv
        simp only [h1, h2, if_true, if_false]
        exact ih p hv
      · have h2' : 0 ≤ cast_int s.value := by omega
        simp only [h1, h2', if_true, if_false] at hv
        have hs : ¬ (s.value > UINT32_MAX) := by
          have := hv s (List.mem_cons_self _ _)
          omega
        simp only [h1, h2, if_false, add_trace_syscall, hs, add_statements_succeeds alloc halloc]
        exact ih _ (fun x hx => hv x (List.mem_cons_of_mem _ hx))

theorem sections_code_length (AV : Nat) (tbl : List Filter) :
    (sections_code AV tbl).length = sections_length AV tbl := by
  induction tbl with
  | nil => rfl
  | cons f rest ih =>
    simp only [sections_code, sections_length, section_code, List.length_append,
      List.length_cons, List.length_nil, trace_code_length, ih, count_traced_syscalls_eq,
      LENGTH_START_SECTION, LENGTH_TRACE_SYSCALL, LENGTH_END_SECTION]

theorem start_arch_section_succeeds (alloc : Nat → Bool) (halloc : ∀ n, alloc n = true)
    (p : sock_fprog) (arch nb : Nat)
    (h : LENGTH_END_SECTION + nb * LENGTH_TRACE_SYSCALL ≤ UINT8_MAX) :
    ∃ q, start_arch_section alloc p arch nb = .ok q := by
  unfold start_arch_section
  have hr : ¬ (arch_offset > UINT32_MAX ∨ syscall_offset > UINT32_MAX ∨
      (LENGTH_END_SECTION + nb * LENGTH_TRACE_SYSCALL) % SIZE_MOD > UINT8_MAX) := by
    rintro (h1 | h1 | h1)
    · exact absurd h1 (by decide)
    · exact absurd h1 (by decide)
    · simp only [LENGTH_END_SECTION, LENGTH_TRACE_SYSCALL, SIZE_MOD, UINT8_MAX] at h h1
      omega
  simp only [hr, if_false, add_statements_succeeds alloc halloc]
  exact ⟨_, rfl⟩

theorem end_arch_section_succeeds (alloc : Nat → Bool) (halloc : ∀ n, alloc n = true)
    (p : sock_fprog) (nb : Nat)
    (h : p.filter.length + 1 = p.len + (LENGTH_END_SECTION + nb * LENGTH_TRACE_SYSCALL)) :
    ∃ q, end_arch_section alloc p nb = .ok q := by
  have hcheck : (p.filter.length + 1 + (SIZE_MOD - p.len % SIZE_MOD)) % SIZE_MOD
      = (LENGTH_END_SECTION + nb * LENGTH_TRACE_SYSCALL) % SIZE_MOD := by
    simp only [LENGTH_END_SECTION, LENGTH_TRACE_SYSCALL, SIZE_MOD] at h ⊢
    omega
  unfold end_arch_section
  simp only [add_statements_succeeds alloc halloc, List.length_append, List.length_cons,
    List.length_nil]
  simp only [Nat.zero_add, hcheck, ne_eq, not_true_eq_false, if_false]
  exact ⟨_, rfl⟩

/-- The length check of `end_arch_section` refuses a count that is not, modulo half
the range of `size_t`, the number of trace checks appended since the baseline. -/
theorem end_arch_section_mismatch (alloc : Nat → Bool) (p : sock_fprog) (m nb : Nat)
    (halloc : alloc (p.filter.length + 1) = true)
    (hbase : p.filter.length = p.len + m * LENGTH_TRACE_SYSCALL)
    (hne : nb % (SIZE_MOD / 2) ≠ m % (SIZE_MOD / 2)) :
    end_arch_section alloc p nb = .error (-ERANGE) := by
  unfold end_arch_section add_statements
  simp only [List.length_cons, List.length_nil, Nat.zero_add, halloc, List.length_append]
  have : (p.filter.length + 1 + (SIZE_MOD - p.len % SIZE_MOD)) % SIZE_MOD
      ≠ (LENGTH_END_SECTION + nb * LENGTH_TRACE_SYSCALL) % SIZE_MOD := by
    simp only [LENGTH_END_SECTION, LENGTH_TRACE_SYSCALL, SIZE_MOD] at hbase hne ⊢
    omega
  simp [this]

theorem assemble_sections_succeeds (alloc : Nat → Bool) (halloc : ∀ n, alloc n = true)
    (AV : Nat) (fs : List Filter) :
    ∀ p : sock_fprog,
      (∀ f ∈ table_entries fs,
        LENGTH_END_SECTION + count_traced_syscalls AV f.syscalls * LENGTH_TRACE_SYSCALL
          ≤ UINT8_MAX) →
      (∀ f ∈ table_entries fs, ∀ s ∈ traced_syscalls AV f.syscalls, s.value ≤ UINT32_MAX) →
      p.filter.length + sections_length AV (table_entries fs) < USHRT_MOD →
      ∃ q, assemble_sections alloc AV fs p = .ok q := by
  induction fs with
  | nil => intro p _ _ _; exact ⟨p, rfl⟩
  | cons f rest ih =>
    intro p hsec hval htot
    rw [table_entries_cons] at hsec hval htot
    unfold assemble_sections
    by_cases h0 : f.architecture = 0
    · exact ⟨p, by simp [h0]⟩
    · simp only [h0, if_false] at hsec hval htot ⊢
      have hf := List.mem_cons_self f (table_entries rest)
      simp only [sections_length, LENGTH_START_SECTION, LENGTH_TRACE_SYSCALL,
        LENGTH_END_SECTION, USHRT_MOD] at htot
      obtain ⟨p1, h1⟩ := start_arch_section_succeeds alloc halloc p f.architecture
        (count_traced_syscalls AV f.syscalls) (hsec f hf)
      obtain ⟨_, hf1, hl1⟩ := start_arch_section_ok alloc p p1 _ _ h1
      obtain ⟨p2, h2⟩ := add_traced_syscalls_succeeds alloc halloc AV f.syscalls p1 (hval f hf)
      obtain ⟨hl2, hf2, _⟩ := add_traced_syscalls_ok alloc AV f.syscalls p1 p2 h2
      have hlen1 : p1.filter.length = p.filter.length + 3 := by rw [hf1]; simp
      have hlen2 : p2.filter.length
          = p.filter.length + 3 + count_traced_syscalls AV f.syscalls * 2 := by
        rw [hf2, List.length_append, trace_code_length, hlen1, count_traced_syscalls_eq]
      have hbase : p2.len = p.filter.length + 3 := by
        rw [hl2, hl1, hlen1]
        exact Nat.mod_eq_of_lt (by simp only [USHRT_MOD]; omega)
      obtain ⟨p3, h3⟩ := end_arch_section_succeeds alloc halloc p2
        (count_traced_syscalls AV f.syscalls) (by
          simp only [LENGTH_END_SECTION, LENGTH_TRACE_SYSCALL]
          omega)
      obtain ⟨_, hf3⟩ := end_arch_section_ok alloc p2 p3 _ h3
      have hlen3 : p3.filter.length
          = p.filter.length + 3 + count_traced_syscalls AV f.syscalls * 2 + 1 := by
        rw [hf3, List.length_append, hlen2]; rfl
      simp only [h1, h2, h3]
      exact ih p3 (fun g hg => hsec g (List.mem_cons_of_mem _ hg))
        (fun g hg => hval g (List.mem_cons_of_mem _ hg))
        (by simp only [USHRT_MOD]; omega)

/-- C11 (fails on the code): the count is only compared modulo the range of `size_t`.
After a baseline of 3 and the 2 trace checks of the first section of `program_x86`,
`end_arch_section` called with the count `2 + 2 ^ 63` does not return `-ERANGE`: the
product by 2 wraps, the check passes and the call returns 0. -/
theorem C11_wrapped_count_passes_check :
    (program_x86.filter.take 7).length = 3 + 2 * LENGTH_TRACE_SYSCALL ∧
    (9223372036854775810 : Nat) ≠ 2 ∧
    end_arch_section (fun _ => true)
        { len := 3, filter := program_x86.filter.take 7 } 9223372036854775810
      = .ok { len := 3, filter := program_x86.filter.take 8 } := by
  refine ⟨by decide, by decide, ?_⟩
  rfl

/-- C11 (as amended): a table whose sections are within the 8-bit limit and whose traced
values are 32-bit values, with no allocation failure and fewer than 2 ^ 16 instructions
in all, is assembled without error (so the length check of `end_arch_section` has
passed for every architecture) into exactly one kill statement plus, per architecture,
3 guard statements, 2 per traced syscall and 1 allow statement; and `end_arch_section`
called with a count that differs, modulo 2 ^ 63 (half the range of `size_t`), from the
number of trace checks appended since the baseline returns `-ERANGE`. -/
theorem C11_assembled_length (alloc : Nat → Bool) (AV : Nat) (filters : List Filter)
    (halloc : ∀ n, alloc n = true)
    (hsec : ∀ f ∈ table_entries filters,
      LENGTH_END_SECTION + count_traced_syscalls AV f.syscalls * LENGTH_TRACE_SYSCALL
        ≤ UINT8_MAX)
    (hval : ∀ f ∈ table_entries filters, ∀ s ∈ traced_syscalls AV f.syscalls,
      s.value ≤ UINT32_MAX)
    (htotal : LENGTH_FINALIZE + sections_length AV (table_entries filters) < USHRT_MOD) :
    (∃ prog, set_seccomp_filters_assemble alloc AV filters = .ok prog ∧
      prog.filter.length = LENGTH_FINALIZE + sections_length AV (table_entries filters) ∧
      prog.len = LENGTH_FINALIZE + sections_length AV (table_entries filters)) ∧
    (∀ (p : sock_fprog) (m nb : Nat),
      p.filter.length = p.len + m * LENGTH_TRACE_SYSCALL →
      nb % (SIZE_MOD / 2) ≠ m % (SIZE_MOD / 2) →
      end_arch_section alloc p nb = .error (-ERANGE)) := by
  constructor
  · obtain ⟨p1, h1⟩ := assemble_sections_succeeds alloc halloc AV filters
      { len := 0, filter := [] } hsec hval (by
        simp only [LENGTH_FINALIZE, USHRT_MOD, List.length_nil] at htotal ⊢
        omega)
    have hasm : set_seccomp_filters_assemble alloc AV filters
        = finalize_program_filter alloc p1 := by
      simp [set_seccomp_filters_assemble, new_program_filter, halloc, h1]
    have hfin : finalize_program_filter alloc p1
        = .ok { len := (p1.filter ++ [BPF_STMT (BPF_RET + BPF_K) SECCOMP_RET_KILL]).length
                  % USHRT_MOD,
                filter := p1.filter ++ [BPF_STMT (BPF_RET + BPF_K) SECCOMP_RET_KILL] } := by
      simp [finalize_program_filter, add_statements_succeeds alloc halloc]
    rw [hfin] at hasm
    obtain ⟨hshape, _⟩ := set_seccomp_filters_assemble_ok alloc AV filters _ hasm
    have hlen : (p1.filter ++ [BPF_STMT (BPF_RET + BPF_K) SECCOMP_RET_KILL]).length
        = LENGTH_FINALIZE + sections_length AV (table_entries filters) := by
      simp only at hshape
      rw [hshape, List.length_append, sections_code_length]
      simp only [List.length_cons, List.length_nil, LENGTH_FINALIZE]
      omega
    refine ⟨_, hasm, hlen, ?_⟩
    show (p1.filter ++ [BPF_STMT (BPF_RET + BPF_K) SECCOMP_RET_KILL]).length % USHRT_MOD = _
    rw [hlen]
    exact Nat.mod_eq_of_lt htotal
  · intro p m nb hbase hne
    exact end_arch_section_mismatch alloc p m nb (halloc _) hbase hne

theorem C11_assembled_length_witness :
    (∃ prog, set_seccomp_filters_assemble (fun _ => true) AV_64 filters_x86 = .ok prog ∧
      prog.filter.length = 15 ∧ prog.len = 15) ∧
    end_arch_section (fun _ => true)
      { len := 3, filter := program_x86.filter.take 7 } 3 = .error (-ERANGE) :=
  have h := C11_assembled_length (fun _ => true) AV_64 filters_x86 (fun _ => rfl)
    (by decide) (by decide) (by decide)
  ⟨h.1, h.2 { len := 3, filter := program_x86.filter.take 7 } 2 3 (by decide) (by decide)⟩

/-! ## Operands, errors and jump targets of the assembled program -/

theorem trace_check_operands_append (l1 l2 : List sock_filter) :
    trace_check_operands (l1 ++ l2) = trace_check_operands l1 ++ trace_check_operands l2 := by
  induction l1 with
  | nil => rfl
  | cons i rest ih =>
    rw [List.cons_append, trace_check_operands, trace_check_operands, ih]
    split
    · rfl
    · rfl

theorem trace_check_operands_stmt (code k : Nat) (rest : List sock_filter)
    (h : code % 65536 ≠ BPF_JMP + BPF_JEQ + BPF_K) :
    trace_check_operands (BPF_STMT code k :: rest) = trace_check_operands rest := by
  have : ¬ ((BPF_STMT code k).code = BPF_JMP + BPF_JEQ + BPF_K ∧ (BPF_STMT code k).jf = 1) :=
    fun hc => h hc.1
  rw [trace_check_operands, if_neg this]

theorem trace_check_operands_trace_code (tr : List FilteredSyscall)
    (hv : ∀ s ∈ tr, s.value ≤ UINT32_MAX) :
    trace_check_operands (trace_code tr) = tr.map (fun s => s.value) := by
  induction tr with
  | nil => rfl
  | cons s tl ih =>
    have hs : s.value < 4294967296 := by
      have := hv s (List.mem_cons_self _ _)
      simp only [UINT32_MAX] at this
      omega
    have hjeq : (BPF_JUMP (BPF_JMP + BPF_JEQ + BPF_K) s.value 0 1).code
          = BPF_JMP + BPF_JEQ + BPF_K
        ∧ (BPF_JUMP (BPF_JMP + BPF_JEQ + BPF_K) s.value 0 1).jf = 1 := ⟨rfl, rfl⟩
    have hk : (BPF_JUMP (BPF_JMP + BPF_JEQ + BPF_K) s.value 0 1).k = s.value :=
      Nat.mod_eq_of_lt hs
    rw [trace_code, trace_check_operands, if_pos hjeq, hk,
      trace_check_operands_stmt _ _ _ (by decide),
      ih (fun x hx => hv x (List.mem_cons_of_mem _ hx))]
    rfl

theorem trace_check_operands_section_code (arch : Nat) (tr : List FilteredSyscall)
    (hv : ∀ s ∈ tr, s.value ≤ UINT32_MAX) :
    trace_check_operands (section_code arch tr) = tr.map (fun s => s.value) := by
  have hguard : ¬ ((BPF_JUMP (BPF_JMP + BPF_JEQ + BPF_K) arch 0
        (LENGTH_END_SECTION + tr.length * LENGTH_TRACE_SYSCALL + 1)).code
          = BPF_JMP + BPF_JEQ + BPF_K
      ∧ (BPF_JUMP (BPF_JMP + BPF_JEQ + BPF_K) arch 0
        (LENGTH_END_SECTION + tr.length * LENGTH_TRACE_SYSCALL + 1)).jf = 1) := by
    rintro ⟨_, h⟩
    have h' : (LENGTH_END_SECTION + tr.length * LENGTH_TRACE_SYSCALL + 1) % 256 = 1 := h
    simp only [LENGTH_END_SECTION, LENGTH_TRACE_SYSCALL] at h'
    omega
  have h := section_code_cons arch tr []
  rw [List.append_nil, List.append_nil] at h
  rw [h, trace_check_operands_stmt _ _ _ (by decide), trace_check_operands, if_neg hguard,
    trace_check_operands_stmt _ _ _ (by decide), trace_check_operands_append,
    trace_check_operands_trace_code tr hv, trace_check_operands_stmt _ _ _ (by decide)]
  simp [trace_check_operands]

theorem trace_check_operands_sections_code (AV : Nat) (tbl : List Filter)
    (hv : ∀ f ∈ tbl, ∀ s ∈ traced_syscalls AV f.syscalls, s.value ≤ UINT32_MAX) :
    trace_check_operands (sections_code AV tbl) = traced_values AV tbl := by
  induction tbl with
  | nil => rfl
  | cons f rest ih =>
    rw [sections_code, trace_check_operands_append,
      trace_check_operands_section_code _ _ (hv f (List.mem_cons_self _ _)),
      ih (fun g hg => hv g (List.mem_cons_of_mem _ hg))]
    rfl

theorem add_statements_error (alloc : Nat → Bool) (p : sock_fprog) (st : List sock_filter)
    (e : Int) (h : add_statements alloc p st = .error e) :
    e = -ENOMEM ∧ ∃ n, alloc n = false := by
  unfold add_statements at h
  by_cases ha : alloc (p.filter.length + st.length) = false
  · simp only [ha, if_true, Except.error.injEq] at h
    exact ⟨h.symm, _, ha⟩
  · simp [ha] at h

/-- The assembling part fails with `-ERANGE`, or with `-ENOMEM` after an allocation
failure, and with nothing else. -/
theorem set_seccomp_filters_assemble_error (alloc : Nat → Bool) (AV : Nat)
    (filters : List Filter) (e : Int)
    (h : set_seccomp_filters_assemble alloc AV filters = .error e) :
    e = -ERANGE ∨ (e = -ENOMEM ∧ ∃ n, alloc n = false) := by
  have hadd : ∀ (l : List FilteredSyscall) (p : sock_fprog),
      add_traced_syscalls alloc AV l p = .error e →
      e = -ERANGE ∨ (e = -ENOMEM ∧ ∃ n, alloc n = false) := by
    intro l
    induction l with
    | nil => intro p h; simp [add_traced_syscalls] at h
    | cons s rest ih =>
      intro p h
      unfold add_traced_syscalls at h
      split at h
      · cases h
      · split at h
        · exact ih p h
        · split at h
          · rename_i e' he'
            simp only [Except.error.injEq] at h
            subst h
            unfold add_trace_syscall at he'
            split at he'
            · simp only [Except.error.injEq] at he'
              exact Or.inl he'.symm
            · exact Or.inr (add_statements_error alloc _ _ _ he')
          · exact ih _ h
  have hsec : ∀ (fs : List Filter) (p : sock_fprog),
      assemble_sections alloc AV fs p = .error e →
      e = -ERANGE ∨ (e = -ENOMEM ∧ ∃ n, alloc n = false) := by
    intro fs
    induction fs with
    | nil => intro p h; simp [assemble_sections] at h
    | cons f rest ih =>
      intro p h
      unfold assemble_sections at h
      split at h
      · cases h
      · simp only at h
        split at h
        · rename_i e' he'
          simp only [Except.error.injEq] at h
          subst h
          unfold start_arch_section at he'
          simp only at he'
          split at he'
          · simp only [Except.error.injEq] at he'
            exact Or.inl he'.symm
          · split at he'
            · rename_i e'' he''
              simp only [Except.error.injEq] at he'
              subst he'
              exact Or.inr (add_statements_error alloc _ _ _ he'')
            · cases he'
        · split at h
          · rename_i e' he'
            simp only [Except.error.injEq] at h
            subst h
            exact hadd _ _ he'
          · split at h
            · rename_i e' he'
              simp only [Except.error.injEq] at h
              subst h
              unfold end_arch_section at he'
              split at he'
              · rename_i e'' he''
                simp only [Except.error.injEq] at he'
                subst he'
                exact Or.inr (add_statements_error alloc _ _ _ he'')
              · split at he'
                · simp only [Except.error.injEq] at he'
                  exact Or.inl he'.symm
                · cases he'
            · exact ih _ h
  unfold set_seccomp_filters_assemble at h
  split at h
  · rename_i e' he'
    simp only [Except.error.injEq] at h
    subst h
    unfold new_program_filter at he'
    split at he'
    · rename_i ha
      simp only [Except.error.injEq] at he'
      exact Or.inr ⟨he'.symm, 0, ha⟩
    · cases he'
  · split at h
    · rename_i e' he'
      simp only [Except.error.injEq] at h
      subst h
      exact hsec _ _ he'
    · unfold finalize_program_filter at h
      split at h
      · rename_i e'' he''
        simp only [Except.error.injEq] at h
        subst h
        exact Or.inr (add_statements_error alloc _ _ _ he'')
      · cases h

theorem stays_inside_run (d : seccomp_data) (l : List sock_filter) (h : stays_inside l) :
    ∀ (A s : Nat), s < l.length → ∃ v, bpf_run d l A s = some v := by
  induction l with
  | nil => intro A s hs; simp at hs
  | cons i rest ih =>
    intro A s hs
    obtain ⟨hrest, hi⟩ := h
    cases s with
    | succ s' =>
      rw [bpf_run]
      exact ih hrest A s' (by simp only [List.length_cons] at hs; omega)
    | zero =>
      rcases hi with hret | ⟨hld, hk, hne⟩ | ⟨hjeq, hjt, hjf⟩
      · have h1 : ¬ (i.code = BPF_LD + BPF_W + BPF_ABS) := by rw [hret]; decide
        have h2 : ¬ (i.code = BPF_JMP + BPF_JEQ + BPF_K) := by rw [hret]; decide
        exact ⟨i.k, by rw [bpf_run, if_neg h1, if_neg h2, if_pos hret]⟩
      · have hpos : 0 < rest.length := List.length_pos.mpr hne
        rw [bpf_run, if_pos hld]
        rcases hk with hk | hk
        · have : d.load i.k = some d.nr := by rw [hk]; rfl
          rw [this]
          exact ih hrest _ 0 hpos
        · have : d.load i.k = some d.arch := by rw [hk]; rfl
          rw [this]
          exact ih hrest _ 0 hpos
      · have h1 : ¬ (i.code = BPF_LD + BPF_W + BPF_ABS) := by rw [hjeq]; decide
        rw [bpf_run, if_neg h1, if_pos hjeq]
        apply ih hrest
        split <;> assumption

theorem stays_inside_index (l : List sock_filter) (h : stays_inside l) :
    ∀ (idx : Nat) (insn : sock_filter), l[idx]? = some insn →
      insn.code = BPF_JMP + BPF_JEQ + BPF_K →
      idx + 1 + insn.jt < l.length ∧ idx + 1 + insn.jf < l.length := by
  induction l with
  | nil => intro idx insn hget; simp at hget
  | cons i rest ih =>
    intro idx insn hget hcode
    obtain ⟨hrest, hi⟩ := h
    cases idx with
    | zero =>
      simp only [List.getElem?_cons_zero, Option.some.injEq] at hget
      subst hget
      rcases hi with hret | ⟨hld, _, _⟩ | ⟨_, hjt, hjf⟩
      · rw [hret] at hcode; exact absurd hcode (by decide)
      · rw [hld] at hcode; exact absurd hcode (by decide)
      · simp only [List.length_cons]; omega
    | succ n =>
      simp only [List.getElem?_cons_succ] at hget
      have := ih hrest n insn hget hcode
      simp only [List.length_cons]
      omega

theorem stays_inside_ret (k : Nat) (rest : List sock_filter) (h : stays_inside rest) :
    stays_inside (BPF_STMT (BPF_RET + BPF_K) k :: rest) :=
  ⟨h, Or.inl rfl⟩

theorem stays_inside_trace_code (tr : List FilteredSyscall) (k : Nat)
    (rest : List sock_filter) (h : stays_inside rest) :
    stays_inside (trace_code tr ++ BPF_STMT (BPF_RET + BPF_K) k :: rest) := by
  induction tr with
  | nil => exact stays_inside_ret k rest h
  | cons s tl ih =>
    rw [trace_code, List.cons_append, List.cons_append]
    refine ⟨stays_inside_ret _ _ ih, Or.inr (Or.inr ⟨rfl, ?_, ?_⟩)⟩
    · show 0 % 256 < _
      simp
    · show 1 % 256 < _
      simp

theorem stays_inside_section_code (arch : Nat) (tr : List FilteredSyscall)
    (rest : List sock_filter) (h : stays_inside rest) (hne : rest ≠ []) :
    stays_inside (section_code arch tr ++ rest) := by
  have hpos : 0 < rest.length := List.length_pos.mpr hne
  have htail : stays_inside (trace_code tr ++ BPF_STMT (BPF_RET + BPF_K) SECCOMP_RET_ALLOW
      :: rest) := stays_inside_trace_code tr _ rest h
  have hlist : (BPF_STMT (BPF_LD + BPF_W + BPF_ABS) syscall_offset ::
        (trace_code tr ++ [BPF_STMT (BPF_RET + BPF_K) SECCOMP_RET_ALLOW])) ++ rest
      = BPF_STMT (BPF_LD + BPF_W + BPF_ABS) syscall_offset ::
        (trace_code tr ++ BPF_STMT (BPF_RET + BPF_K) SECCOMP_RET_ALLOW :: rest) := by
    simp
  rw [section_code_cons, hlist]
  have hl : (BPF_STMT (BPF_LD + BPF_W + BPF_ABS) syscall_offset ::
      (trace_code tr ++ BPF_STMT (BPF_RET + BPF_K) SECCOMP_RET_ALLOW :: rest)).length
      = tr.length * 2 + 2 + rest.length := by
    simp only [List.length_cons, List.length_append, trace_code_length, LENGTH_TRACE_SYSCALL]
    omega
  refine ⟨⟨⟨htail, Or.inr (Or.inl ⟨rfl, Or.inl rfl, by simp⟩)⟩,
      Or.inr (Or.inr ⟨rfl, ?_, ?_⟩)⟩,
    Or.inr (Or.inl ⟨rfl, Or.inr rfl, by simp⟩)⟩
  · show 0 % 256 < _
    rw [hl]
    omega
  · show (LENGTH_END_SECTION + tr.length * LENGTH_TRACE_SYSCALL + 1) % 256 < _
    rw [hl]
    simp only [LENGTH_END_SECTION, LENGTH_TRACE_SYSCALL]
    omega

theorem stays_inside_sections_code (AV : Nat) (tbl : List Filter) :
    stays_inside (sections_code AV tbl ++ [BPF_STMT (BPF_RET + BPF_K) SECCOMP_RET_KILL]) := by
  induction tbl with
  | nil => exact stays_inside_ret _ _ trivial
  | cons f rest ih =>
    rw [sections_code, List.append_assoc]
    exact stays_inside_section_code _ _ _ ih (by simp)

/-- C14: in a program assembled without error the comparison operands of the trace
checks are, in order, the full values of the traced entries of the table; and a table
with a traced entry whose value exceeds `UINT32_MAX` is not assembled: the error is
`-ERANGE`, unless an allocation has failed first (`-ENOMEM`). -/
theorem C14_trace_operands_untruncated (alloc : Nat → Bool) (AV : Nat)
    (filters : List Filter) :
    (∀ prog, set_seccomp_filters_assemble alloc AV filters = .ok prog →
      trace_check_operands prog.filter = traced_values AV (table_entries filters)) ∧
    (∀ f s, f ∈ table_entries filters → s ∈ traced_syscalls AV f.syscalls →
      s.value > UINT32_MAX →
      ∃ e, set_seccomp_filters_assemble alloc AV filters = .error e ∧
        (e = -ERANGE ∨ e = -ENOMEM) ∧ ((∀ n, alloc n = true) → e = -ERANGE)) := by
  constructor
  · intro prog hasm
    obtain ⟨hshape, hall⟩ := set_seccomp_filters_assemble_ok alloc AV filters prog hasm
    rw [hshape, trace_check_operands_append,
      trace_check_operands_sections_code AV _ (fun f hf => (hall f hf).2),
      trace_check_operands_stmt _ _ _ (by decide)]
    simp [trace_check_operands]
  · intro f s hf hs hbig
    cases hasm : set_seccomp_filters_assemble alloc AV filters with
    | ok prog =>
      obtain ⟨_, hall⟩ := set_seccomp_filters_assemble_ok alloc AV filters prog hasm
      have := (hall f hf).2 s hs
      omega
    | error e =>
      refine ⟨e, rfl, ?_, ?_⟩
      · rcases set_seccomp_filters_assemble_error alloc AV filters e hasm with h | ⟨h, _⟩
        · exact Or.inl h
        · exact Or.inr h
      · intro halloc
        rcases set_seccomp_filters_assemble_error alloc AV filters e hasm with h | ⟨_, n, hn⟩
        · exact h
        · rw [halloc n] at hn
          cases hn

theorem C14_trace_operands_untruncated_witness :
    trace_check_operands program_x86.filter = [1, 2, 5] ∧
    set_seccomp_filters_assemble (fun _ => true) AV_64 filters_wide = .error (-ERANGE) := by
  refine ⟨(C14_trace_operands_untruncated (fun _ => true) AV_64 filters_x86).1
    program_x86 rfl, ?_⟩
  obtain ⟨e, he, _, hE⟩ := (C14_trace_operands_untruncated (fun _ => true) AV_64
    filters_wide).2
    { architecture := AUDIT_ARCH_X86_64, syscalls := [⟨4294967301, 0⟩, ⟨AV_64, 0⟩] }
    ⟨4294967301, 0⟩ (by decide) (by decide) (by decide)
  rw [he, hE (fun _ => rfl)]

/-- C19: when an assembly step fails, `set_seccomp_filters` returns that negative error
and has issued no `prctl` request; and a filter-installation request is only ever
issued for the whole assembled program, which ends with the kill statement, after the
privilege-restriction request has succeeded. -/
theorem C19_no_request_after_failed_assembly (alloc : Nat → Bool) (AV : Nat) (host : Host)
    (filters : List Filter) :
    (∀ e, set_seccomp_filters_assemble alloc AV filters = .error e →
      set_seccomp_filters alloc AV host filters = (e, []) ∧ e < 0) ∧
    (∀ prog, PrctlRequest.SET_SECCOMP prog ∈ (set_seccomp_filters alloc AV host filters).2 →
      set_seccomp_filters_assemble alloc AV filters = .ok prog ∧
      prog.filter.getLast? = some (BPF_STMT (BPF_RET + BPF_K) SECCOMP_RET_KILL) ∧
      0 ≤ host.no_new_privs ∧
      (set_seccomp_filters alloc AV host filters).2
        = [PrctlRequest.SET_NO_NEW_PRIVS, PrctlRequest.SET_SECCOMP prog]) := by
  constructor
  · intro e hasm
    refine ⟨by simp [set_seccomp_filters, hasm], ?_⟩
    rcases set_seccomp_filters_assemble_error alloc AV filters e hasm with h | ⟨h, _⟩
    · rw [h]; decide
    · rw [h]; decide
  · intro prog hmem
    unfold set_seccomp_filters at hmem ⊢
    cases hasm : set_seccomp_filters_assemble alloc AV filters with
    | error e =>
      rw [hasm] at hmem
      simp at hmem
    | ok p =>
      rw [hasm] at hmem
      simp only at hmem ⊢
      by_cases hnnp : host.no_new_privs < 0
      · rw [if_pos hnnp] at hmem
        simp at hmem
      · rw [if_neg hnnp] at hmem ⊢
        have hp : prog = p := by
          split at hmem <;> simpa using hmem
        subst hp
        obtain ⟨hshape, _⟩ := set_seccomp_filters_assemble_ok alloc AV filters prog hasm
        refine ⟨rfl, ?_, by omega, ?_⟩
        · rw [hshape]
          simp
        · split <;> rfl

theorem C19_no_request_after_failed_assembly_witness :
    set_seccomp_filters (fun n => decide (n < 5)) AV_64 host_accepting filters_x86
      = (-ENOMEM, []) ∧ -ENOMEM < 0 :=
  (C19_no_request_after_failed_assembly (fun n => decide (n < 5)) AV_64 host_accepting
    filters_x86).1 (-ENOMEM) rfl

/-- C20: in a program assembled without error, both targets of every conditional jump,
computed from the offsets stored in its 8-bit fields, are indices inside the
instruction array, the last instruction is a return, and the evaluation on any context
ends with a verdict. -/
theorem C20_jumps_stay_inside (alloc : Nat → Bool) (AV : Nat) (filters : List Filter)
    (prog : sock_fprog)
    (hasm : set_seccomp_filters_assemble alloc AV filters = .ok prog) :
    (∀ (idx : Nat) (insn : sock_filter), prog.filter[idx]? = some insn →
      insn.code = BPF_JMP + BPF_JEQ + BPF_K →
      idx + 1 + insn.jt < prog.filter.length ∧ idx + 1 + insn.jf < prog.filter.length) ∧
    (∃ insn, prog.filter.getLast? = some insn ∧ insn.code = BPF_RET + BPF_K) ∧
    (∀ d : seccomp_data, ∃ v, seccomp_run_filter prog d = some v) := by
  obtain ⟨hshape, hall⟩ := set_seccomp_filters_assemble_ok alloc AV filters prog hasm
  have hsafe : stays_inside prog.filter := by
    rw [hshape]
    exact stays_inside_sections_code AV _
  refine ⟨stays_inside_index _ hsafe, ?_, ?_⟩
  · refine ⟨BPF_STMT (BPF_RET + BPF_K) SECCOMP_RET_KILL, ?_, rfl⟩
    rw [hshape]
    simp
  · intro d
    apply stays_inside_run d _ hsafe
    rw [hshape]
    simp

theorem C20_jumps_stay_inside_witness :
    (∃ insn, program_x86.filter.getLast? = some insn ∧ insn.code = BPF_RET + BPF_K) ∧
    ∃ v, seccomp_run_filter program_x86 { nr := 9, arch := 7 } = some v :=
  have h := C20_jumps_stay_inside (fun _ => true) AV_64 filters_x86 program_x86 rfl
  ⟨h.2.1, h.2.2 { nr := 9, arch := 7 }⟩

/-! ## Contents written by `copy_to_child`, and the buffer of `get_child_string` -/

theorem buffer_word_getD (W : Nat) (buffer : Nat → Nat) (i j : Nat) (hj : j < W) :
    (buffer_word W buffer i).getD j 0 = buffer (i * W + j) :=
  getD_map_range W _ j hj

/-- The word loop of `copy_to_child`, when the kernel accepts the requests: the words
it covers hold the bytes of the source. -/
theorem copy_to_child_words_value (W A : Nat) (src : Nat → Nat) :
    ∀ (n i : Nat) (t : Tracee), (∀ r, t.ok r = true) →
      A + (i + n) * W ≤ ADDR_MOD W →
      ∀ k, i * W ≤ k → k < (i + n) * W →
        (copy_to_child_words W A src n i t).2.mem (A + k) = src k := by
  intro n
  induction n with
  | zero => intro i t _ _ k h1 h2; simp only [Nat.add_zero] at h2; omega
  | succ n ih =>
    intro i t hok hw k h1 h2
    have e1 : (i + (n + 1)) * W = i * W + n * W + W := by ring
    have e2 : (i + 1 + n) * W = i * W + n * W + W := by ring
    have e3 : (i + 1) * W = i * W + W := by ring
    have hstep : copy_to_child_words W A src (n + 1) i t
        = copy_to_child_words W A src n (i + 1)
            (ptrace_POKEDATA W t (word_ptr W A i) (buffer_word W src i)).2 := by
      simp [copy_to_child_words]
    have hok' : ∀ r, (ptrace_POKEDATA W t (word_ptr W A i) (buffer_word W src i)).2.ok r
        = true := by
      intro r
      rw [ptrace_POKEDATA_ok]
      exact hok r
    rw [hstep]
    by_cases hk : k < i * W + W
    · obtain ⟨_, _, hframe⟩ := copy_to_child_words_spec W A src n (i + 1)
        (ptrace_POKEDATA W t (word_ptr W A i) (buffer_word W src i)).2
      have hp : word_ptr W A i = A + i * W := Nat.mod_eq_of_lt (by omega)
      rw [hframe (A + k) (by omega) (Or.inl (by omega)), ptrace_POKEDATA_mem, hok, if_pos rfl,
        hp, store_word_inside W _ _ _ _ (by omega) (by omega) (by omega),
        buffer_word_getD W _ _ _ (by omega)]
      congr 1
      omega
    · exact ih (i + 1) _ hok' (by omega) k (by omega) (by omega)

/-- When the kernel accepts the requests and no address wraps, `copy_to_child` leaves the
bytes of the source in the destination range. -/
theorem copy_to_child_mem_value (W : Nat) (t : Tracee) (A : Nat) (src : Nat → Nat) (L : Nat)
    (hW : 0 < W) (hwrap : A + L + W ≤ ADDR_MOD W) (hok : ∀ r, t.ok r = true)
    (k : Nat) (hk : k < L) :
    (copy_to_child W t A src L).2.mem (A + k) = src k := by
  have hL := div_mul_words W L
  have hlt : L % W < W := Nat.mod_lt L hW
  obtain ⟨h1, h2, _⟩ := copy_to_child_words_spec W A src ((L - L % W) / W) 0 t
  have hval := copy_to_child_words_value W A src ((L - L % W) / W) 0 t hok
    (by simp only [Nat.zero_add]; omega)
  simp only [Nat.zero_add, Nat.zero_mul] at hval
  unfold copy_to_child
  simp only []
  rcases hres : copy_to_child_words W A src ((L - L % W) / W) 0 t with ⟨r, t1⟩
  rw [hres] at h1 h2 hval
  simp only at h1 h2 hval
  subst h1
  have hp : word_ptr W A ((L - L % W) / W) = A + (L - L % W) / W * W :=
    Nat.mod_eq_of_lt (by omega)
  have hnot : ∀ s : Nat, ¬ (s < 0) := fun s => Nat.not_lt_zero s
  simp only [ptrace_PEEKDATA, h2, hok, if_true, hnot, if_false]
  rw [ptrace_POKEDATA_mem]
  have hok2 : (t1.record (.PEEKDATA (word_ptr W A ((L - L % W) / W)))).ok = t.ok := h2
  rw [hok2, hok, if_pos rfl, hp]
  by_cases hfull : k < (L - L % W) / W * W
  · rw [store_word_frame W _ _ _ _ (by
      intro j hj
      rw [Nat.mod_eq_of_lt (by omega)]
      omega)]
    exact hval k (Nat.zero_le _) hfull
  · rw [store_word_inside W _ _ _ _ (by omega) (by omega) (by omega),
      getD_map_range W _ _ (by omega), if_pos (by omega)]
    congr 1
    omega

theorem ptrace_PEEKDATA_fst_cases (W : Nat) (t : Tracee) (addr : Nat) :
    ptrace_PEEKDATA W t addr = (none, t.record (.PEEKDATA addr))
    ∨ ptrace_PEEKDATA W t addr
        = (some (load_word W t.mem addr), t.record (.PEEKDATA addr)) := by
  unfold ptrace_PEEKDATA
  by_cases h : t.ok (.PEEKDATA addr) = true
  · right; simp [h]
  · left; simp [h]

/-- The word loop of `get_child_string` writes into the words it covers only. -/
theorem get_child_string_words_frame (W A : Nat) :
    ∀ (n i : Nat) (t : Tracee) (dest : Nat → Nat) (b : Nat),
      (b < i * W ∨ (i + n) * W ≤ b) →
      (get_child_string_words W A n i t dest).2.1 b = dest b := by
  intro n
  induction n with
  | zero => intro i t dest b _; rfl
  | succ n ih =>
    intro i t dest b hb
    have e1 : (i + (n + 1)) * W = i * W + n * W + W := by ring
    have e2 : (i + 1 + n) * W = i * W + n * W + W := by ring
    have e3 : (i + 1) * W = i * W + W := by ring
    rw [get_child_string_words]
    rcases ptrace_PEEKDATA_fst_cases W t (word_ptr W A i) with hp | hp
    · rw [hp]
    · rw [hp]
      simp only
      split
      · exact buffer_store_outside W _ _ _ b (by omega)
      · rw [ih (i + 1) _ _ b (by omega)]
        exact buffer_store_outside W _ _ _ b (by omega)

/-- The byte loop of `get_child_string` writes into the bytes it covers only. -/
theorem get_child_string_bytes_frame (W : Nat) (word : List Nat) (i : Nat) :
    ∀ (n j : Nat) (dest : Nat → Nat) (b : Nat),
      (b < i * W + j ∨ i * W + j + n ≤ b) →
      (get_child_string_bytes W word i n j dest).2 b = dest b := by
  intro n
  induction n with
  | zero => intro j dest b _; rfl
  | succ n ih =>
    intro j dest b hb
    have hne : ¬ (b = i * W + j) := by omega
    rw [get_child_string_bytes]
    split
    · simp [hne]
    · rw [ih (j + 1) _ b (by omega)]
      simp [hne]

/-- C16: whatever the kernel answers, `get_child_string` leaves every byte of the
destination buffer at index `max_size` or beyond as it was. -/
theorem C16_get_child_string_stays_in_buffer (W : Nat) (t : Tracee) (dest : Nat → Nat)
    (A M : Nat) (b : Nat) (hb : M ≤ b) :
    (get_child_string W t dest A M).2.1 b = dest b := by
  have hM := div_mul_words W M
  have hframe := get_child_string_words_frame W A ((M - M % W) / W) 0 t dest b
    (Or.inr (by simp only [Nat.zero_add]; omega))
  unfold get_child_string
  simp only []
  rcases hres : get_child_string_words W A ((M - M % W) / W) 0 t dest with ⟨r, dest1, t1⟩
  rw [hres] at hframe
  simp only at hframe
  cases r with
  | exited => exact hframe
  | returned v => exact hframe
  | completed =>
    simp only
    rcases ptrace_PEEKDATA_fst_cases W t1 (word_ptr W A ((M - M % W) / W)) with hp | hp
    · rw [hp]
      exact hframe
    · rw [hp]
      simp only
      have := get_child_string_bytes_frame W
        (load_word W t1.mem (word_ptr W A ((M - M % W) / W))) ((M - M % W) / W)
        (M % W) 0 dest1 b (Or.inr (by omega))
      rw [← hframe, ← this]

theorem C16_get_child_string_stays_in_buffer_witness :
    (get_child_string 8 tracee_ab (fun _ => 7) 1000 2).2.1 2 = 7 :=
  C16_get_child_string_stays_in_buffer 8 tracee_ab (fun _ => 7) 1000 2 2 (by decide)

/-- C12: with no address wrap and every request accepted, after `copy_to_child` the
bytes of the tracee memory at `[A, A + L)` are those of the source buffer, whatever the
alignment of `A` and whether or not `L` is a whole number of words. -/
theorem C12_copy_to_child_writes_buffer (W : Nat) (t : Tracee) (A : Nat) (B : List Nat)
    (hW : 0 < W) (hwrap : A + B.length + W ≤ ADDR_MOD W) (hok : ∀ r, t.ok r = true) :
    ∀ k, k < B.length →
      (copy_to_child W t A (fun i => B.getD i 0) B.length).2.mem (A + k) = B.getD k 0 :=
  fun k hk => copy_to_child_mem_value W t A _ _ hW hwrap hok k hk

theorem C12_copy_to_child_writes_buffer_witness :
    (copy_to_child 8 tracee_ab 1001 (fun i => [1, 2, 3, 4, 5, 6, 7, 8, 9, 10].getD i 0)
      10).2.mem (1001 + 9) = 10 :=
  C12_copy_to_child_writes_buffer 8 tracee_ab 1001 [1, 2, 3, 4, 5, 6, 7, 8, 9, 10]
    (by decide) (by decide) (fun _ => rfl) 9 (by decide)

/-! ## Register accessors and the requests issued on the tracee memory -/

/-- C13 (fails on the code): when the kernel refuses the `PTRACE_POKEUSER` request,
`set_child_sysarg` still returns normally, the register being left as it was: the test
`status < 0` is made on an `unsigned long`. -/
theorem C13_refused_write_goes_unreported :
    tracee_gone.ok (.POKEUSER 112 42) = false ∧
    (set_child_sysarg 8 arg_offset_x86_64 tracee_gone 1 42).1 = some () ∧
    (set_child_sysarg 8 arg_offset_x86_64 tracee_gone 1 42).2.log = [.POKEUSER 112 42] ∧
    (set_child_sysarg 8 arg_offset_x86_64 tracee_gone 1 42).2.user 112
      = tracee_gone.user 112 := by
  refine ⟨rfl, ?_, ?_, ?_⟩ <;> decide

/-- C15: for a valid slot, when the kernel accepts the register requests,
`set_child_sysarg` followed by `get_child_sysarg` on the same slot returns the written
value; both requests bear the same offset, the entry of the slot in `arg_offset`; and,
the entries of the table being distinct, the value read for any other valid slot is
what it was before the write. -/
theorem C15_sysarg_round_trip (W : Nat) (arg_offset : List Nat) (t : Tracee)
    (sysarg : Int) (value : Nat)
    (hvalid : SYSARG_FIRST ≤ sysarg ∧ sysarg ≤ SYSARG_LAST)
    (hlen : arg_offset.length = 8) (hdistinct : arg_offset.Nodup)
    (hok : ∀ r, t.ok r = true) :
    (set_child_sysarg W arg_offset t sysarg value).1 = some () ∧
    (get_child_sysarg arg_offset (set_child_sysarg W arg_offset t sysarg value).2 sysarg).1
      = some value ∧
    (get_child_sysarg arg_offset (set_child_sysarg W arg_offset t sysarg value).2 sysarg).2.log
      = t.log ++ [.POKEUSER (arg_offset.getD sysarg.toNat 0) value,
                  .PEEKUSER (arg_offset.getD sysarg.toNat 0)] ∧
    (∀ other : Int, SYSARG_FIRST ≤ other ∧ other ≤ SYSARG_LAST → other ≠ sysarg →
      (get_child_sysarg arg_offset (set_child_sysarg W arg_offset t sysarg value).2 other).1
        = (get_child_sysarg arg_offset t other).1) := by
  have hv : ¬ (sysarg < SYSARG_FIRST ∨ sysarg > SYSARG_LAST) := by omega
  have hnot : ∀ s : Nat, ¬ (s < 0) := fun s => Nat.not_lt_zero s
  have hset : set_child_sysarg W arg_offset t sysarg value
      = (some (), (ptrace_POKEUSER W t (arg_offset.getD sysarg.toNat 0) value).2) := by
    simp only [set_child_sysarg, hv, if_false, hnot]
  have hpoke : (ptrace_POKEUSER W t (arg_offset.getD sysarg.toNat 0) value).2
      = { t.record (.POKEUSER (arg_offset.getD sysarg.toNat 0) value) with
            user := fun o => if o = arg_offset.getD sysarg.toNat 0 then value else t.user o } := by
    simp [ptrace_POKEUSER, hok]
  rw [hset, hpoke]
  refine ⟨rfl, ?_, ?_, ?_⟩
  · simp [get_child_sysarg, hv, ptrace_PEEKUSER, Tracee.record, hok]
  · simp [get_child_sysarg, hv, ptrace_PEEKUSER, Tracee.record, hok]
  · intro other ho hne
    have hvo : ¬ (other < SYSARG_FIRST ∨ other > SYSARG_LAST) := by omega
    have h1 : other.toNat < arg_offset.length := by simp only [SYSARG_LAST] at ho; omega
    have h2 : sysarg.toNat < arg_offset.length := by simp only [SYSARG_LAST] at hvalid; omega
    have hoff : arg_offset.getD other.toNat 0 ≠ arg_offset.getD sysarg.toNat 0 := by
      rw [List.getD_eq_getElem _ _ h1, List.getD_eq_getElem _ _ h2]
      intro heq
      have := (List.Nodup.getElem_inj_iff hdistinct).mp heq
      simp only [SYSARG_FIRST] at ho hvalid
      omega
    simp only [get_child_sysarg, hvo, if_false, ptrace_PEEKUSER, Tracee.record, hok, if_true,
      if_neg hoff]

theorem C15_sysarg_round_trip_witness :
    (get_child_sysarg arg_offset_x86_64
      (set_child_sysarg 8 arg_offset_x86_64 tracee_stack 1 42).2 1).1 = some 42 :=
  (C15_sysarg_round_trip 8 arg_offset_x86_64 tracee_stack 1 42 (by decide) rfl (by decide)
    (fun _ => rfl)).2.1

/-- C17 (fails on the code): for a length that is a whole number of words,
`copy_to_child` still reads and writes back the word that starts at `A + L`, which has
no byte in `[A, A + L)`: with `L = 8` at `A = 1000` the requests are a write at 1000,
then a read and a write at 1008; with `L = 0` they are a read and a write at 1000. -/
theorem C17_requests_past_the_range :
    (copy_to_child 8 tracee_ab 1000 (fun i => i + 1) 8).2.log
      = [ .POKEDATA 1000 [1, 2, 3, 4, 5, 6, 7, 8],
          .PEEKDATA 1008,
          .POKEDATA 1008 [255, 255, 255, 255, 255, 255, 255, 255] ] ∧
    (copy_to_child 8 tracee_ab 1000 (fun i => i + 1) 0).2.log
      = [ .PEEKDATA 1000, .POKEDATA 1000 [97, 98, 0, 255, 255, 255, 255, 255] ] := by
  constructor <;> decide

/-- C18 (fails on the code): for a limit that is a whole number of words and a source
without zero byte below it, `get_child_string` still reads the word that starts at
`A + M`: with `M = 8` at `A = 1003` it reads the words at 1003 and at 1011, and
returns 8. -/
theorem C18_read_past_the_limit :
    (∀ k, k < 8 → tracee_ab.byte_from 8 1003 k ≠ 0) ∧
    (get_child_string 8 tracee_ab (fun _ => 0) 1003 8).1 = some 8 ∧
    (get_child_string 8 tracee_ab (fun _ => 0) 1003 8).2.2.log
      = [.PEEKDATA 1003, .PEEKDATA 1011] := by
  refine ⟨?_, by decide, by decide⟩
  intro k hk
  interval_cases k <;> decide

end PRoot
